import Mathlib

/-!
go-xlsx2jsonl: rows of a sheet to JSON records.

A shallow embedding of `x2jsonl.go`: the typed-value converter, the row
sequencer (`Xrows.ToIter`), header and sample resolution and the two object
assemblers, followed by the properties proved about them.

Conventions of the embedding.

* A Go `error` is a `GoError`; the `nil` error is `none`.
* A function returning `(T, error)` whose callers drop the value on error is an
  `Except GoError T`.
* A Go `iter.Seq2[K, V]` is run against a consumer: the consumer is a step
  function on its own state that answers whether it wants more (`Yield`).
* Go `int` counters are `Int` (they are bounded by the number of rows read);
  the narrowing conversions `uint16(..)` and `uint32(..)` are explicit `%`.
* The spreadsheet decoder (excelize) and `strconv` are libraries outside the
  repository; they are modelled by `File`, `SrcRow`, `CoordinatesToCellName`
  and the `strconv` section.
-/

namespace X2jsonl

deriving instance DecidableEq for Except

/-! ## Errors -/

/-- Go error values met by the package. -/
inductive GoError where
  /-- A package-level `errors.New(msg)` value. -/
  | sentinel (msg : String)
  /-- A `fmt.Errorf` value with one `%w` verb: its message and the error it wraps. -/
  | wrapf (msg : String) (inner : GoError)
  /-- A `*strconv.NumError`: function name, operand, and whether it is
  `ErrRange` (otherwise `ErrSyntax`). -/
  | numError (fn : String) (num : String) (outOfRange : Bool)
  /-- An error produced by the spreadsheet decoder. -/
  | source (msg : String)
  deriving DecidableEq, Repr

/-- Go `errors.Is(e, target)`. -/
def GoError.Is : GoError → GoError → Bool
  | .wrapf msg inner, target => (GoError.wrapf msg inner == target) || inner.Is target
  | e, target => e == target

/-- The message of an error that this package builds itself (`errors.New`,
`fmt.Errorf`) or receives from the decoder; for a `NumError` only the part that
does not depend on `strconv.Quote` is rendered. -/
def GoError.Error : GoError → String
  | .sentinel msg => msg
  | .wrapf msg _ => msg
  | .numError fn _ outOfRange =>
      "strconv." ++ fn ++ ": " ++ (if outOfRange then "value out of range" else "invalid syntax")
  | .source msg => msg

def ErrUnableToGetHeader : GoError := .sentinel "unable to get header"
def ErrInvalidColumnCount : GoError := .sentinel "invalid column count"
def ErrNoSampleRow : GoError := .sentinel "too few rows"
def ErrTooManyColumns : GoError := .sentinel "too many columns"
def ErrUnexpectedTypCount : GoError := .sentinel "column count mismatch"

/-- The text `sub` occurs in `s`. -/
def containsText (s sub : String) : Prop := sub.data <:+: s.data

/-! ## strconv (library model) -/

/-- A Go `float64`, as its IEEE 754 binary64 bit pattern (`math.Float64bits`). -/
structure Float64 where
  bits : Nat
  deriving DecidableEq, Repr

namespace Float64

def signBit : Nat := 2 ^ 63

/-- `math.Inf(sign)`. -/
def inf (neg : Bool) : Float64 := ⟨(if neg then signBit else 0) + 2047 * 2 ^ 52⟩

/-- `math.NaN()`. -/
def nan : Float64 := ⟨0x7FF8000000000001⟩

/-- Biased exponent field. -/
def expField (f : Float64) : Nat := (f.bits / 2 ^ 52) % 2048

/-- Neither an infinity nor a NaN. -/
def isFinite (f : Float64) : Bool := f.expField != 2047

/-- Floor of the binary logarithm, `fuel` bounding the number of halvings. -/
def log2Fuel : Nat → Nat → Nat
  | 0, _ => 0
  | fuel + 1, n => if 2 ≤ n then log2Fuel fuel (n / 2) + 1 else 0

/-- Floor of the binary logarithm of a positive number. -/
def log2 (n : Nat) : Nat := log2Fuel n n

/-- The nearest binary64 to `num / den` (ties to even) with the given sign,
and whether the magnitude overflows the format. -/
def round (neg : Bool) (num den : Nat) : Float64 × Bool :=
  let sign := if neg then signBit else 0
  if num = 0 ∨ den = 0 then (⟨sign⟩, false) else
  let e0 : Int := (log2 num : Int) - (log2 den : Int)
  let ge : Bool := if 0 ≤ e0 then den * 2 ^ e0.toNat ≤ num else den ≤ num * 2 ^ (-e0).toNat
  let e : Int := if ge then e0 else e0 - 1
  let sh : Int := max (e - 52) (-1074)
  let n : Nat := if 0 ≤ sh then num else num * 2 ^ (-sh).toNat
  let d : Nat := if 0 ≤ sh then den * 2 ^ sh.toNat else den
  let q := n / d
  let r := n % d
  let q1 := if d < 2 * r ∨ (2 * r = d ∧ q % 2 = 1) then q + 1 else q
  let q2 := if q1 = 2 ^ 53 then 2 ^ 52 else q1
  let sh2 : Int := if q1 = 2 ^ 53 then sh + 1 else sh
  if q2 < 2 ^ 52 then (⟨sign + q2⟩, false)
  else
    let biased : Int := sh2 + 1075
    if 2047 ≤ biased then (inf neg, true)
    else (⟨sign + biased.toNat * 2 ^ 52 + (q2 - 2 ^ 52)⟩, false)

end Float64

namespace strconv

/-- `syntaxError(fn, s)`. -/
def syntaxError (fn s : String) : GoError := .numError fn s false

/-- `rangeError(fn, s)`. -/
def rangeError (fn s : String) : GoError := .numError fn s true

/-- `strconv.ParseBool`. -/
def ParseBool (str : String) : Except GoError Bool :=
  if str = "1" ∨ str = "t" ∨ str = "T" ∨ str = "true" ∨ str = "TRUE" ∨ str = "True" then .ok true
  else if str = "0" ∨ str = "f" ∨ str = "F" ∨ str = "false" ∨ str = "FALSE" ∨ str = "False" then
    .ok false
  else .error (syntaxError "ParseBool" str)

/-- A decimal digit byte. -/
def isDigit (c : Char) : Bool := decide ('0'.toNat ≤ c.toNat ∧ c.toNat ≤ '9'.toNat)

/-- Value of a decimal digit byte. -/
def digitVal (c : Char) : Nat := c.toNat - '0'.toNat

/-- The byte loop of `strconv.ParseUint(s, 10, 64)` with `n` accumulated so
far: the value, or whether the failure is a range error (it is one as soon as
the next digit takes the value out of 64 bits, before later bytes are seen). -/
def parseUintLoop : List Char → Nat → Except Bool Nat
  | [], n => .ok n
  | c :: cs, n =>
    if ¬ isDigit c then .error false
    else if 2 ^ 64 ≤ n * 10 + digitVal c then .error true
    else parseUintLoop cs (n * 10 + digitVal c)

/-- `strconv.ParseUint(s, 10, 64)`: the value, or whether the failure is a
range error. -/
def ParseUintChars (s : List Char) : Except Bool Nat :=
  if s = [] then .error false else parseUintLoop s 0

/-- `strconv.ParseInt(s, 10, 64)`. -/
def ParseInt (s : String) : Except GoError Int :=
  match s.data with
  | [] => .error (syntaxError "ParseInt" s)
  | c :: cs =>
    let neg := c = '-'
    let body := if c = '+' ∨ c = '-' then cs else c :: cs
    match ParseUintChars body with
    | .error false => .error (syntaxError "ParseInt" s)
    | .error true => .error (rangeError "ParseInt" s)
    | .ok un =>
      if ¬ neg ∧ 2 ^ 63 ≤ un then .error (rangeError "ParseInt" s)
      else if neg ∧ 2 ^ 63 < un then .error (rangeError "ParseInt" s)
      else .ok (if neg then -(un : Int) else (un : Int))

/-- ASCII upper case to lower case, as in `commonPrefixLenIgnoreCase`. -/
def foldCase (c : Char) : Char :=
  if 'A'.toNat ≤ c.toNat ∧ c.toNat ≤ 'Z'.toNat then Char.ofNat (c.toNat + 32) else c

/-- `commonPrefixLenIgnoreCase(s, pre)`, `pre` in lower case. -/
def commonPrefixLenIgnoreCase : List Char → List Char → Nat
  | c :: cs, p :: ps => if foldCase c = p then commonPrefixLenIgnoreCase cs ps + 1 else 0
  | _, _ => 0

/-- The infinity case of `special`: `nsign` bytes of sign already consumed. -/
def specialInf (neg : Bool) (nsign : Nat) (s : List Char) : Option (Float64 × Nat) :=
  let n := commonPrefixLenIgnoreCase s "infinity".data
  let n := if 3 < n ∧ n < 8 then 3 else n
  if n = 3 ∨ n = 8 then some (Float64.inf neg, nsign + n) else none

/-- `special(s)`: an infinity or a NaN at the start of `s`, with the number
of bytes it takes. -/
def special (s : List Char) : Option (Float64 × Nat) :=
  match s with
  | [] => none
  | c :: cs =>
    if c = '+' ∨ c = '-' then specialInf (c = '-') 1 cs
    else if c = 'i' ∨ c = 'I' then specialInf false 0 (c :: cs)
    else if c = 'n' ∨ c = 'N' then
      (if commonPrefixLenIgnoreCase (c :: cs) "nan".data = 3 then some (Float64.nan, 3) else none)
    else none

/-- A hexadecimal letter digit (`'a' <= lower(c) && lower(c) <= 'f'`). -/
def isHexLetter (c : Char) : Bool :=
  decide (('a'.toNat ≤ c.toNat ∧ c.toNat ≤ 'f'.toNat) ∨ ('A'.toNat ≤ c.toNat ∧ c.toNat ≤ 'F'.toNat))

/-- Value of a hexadecimal letter digit. -/
def hexLetterVal (c : Char) : Nat :=
  if 'a'.toNat ≤ c.toNat then c.toNat - 'a'.toNat + 10 else c.toNat - 'A'.toNat + 10

/-- The variables of `readFloat` while it reads the mantissa. The mantissa
keeps every digit: the 19-digit cut of the library only selects among
algorithms that all return the correctly rounded value. -/
structure Mant where
  mantissa : Nat := 0
  nd : Nat := 0
  dp : Int := 0
  sawdot : Bool := false
  sawdigits : Bool := false
  underscores : Bool := false
  deriving DecidableEq, Repr

/-- The digit loop of `readFloat`: the state at the first byte that is not part
of the mantissa, and the bytes from there on. -/
def readMantissa (hex : Bool) : List Char → Mant → Mant × List Char
  | [], m => (m, [])
  | c :: cs, m =>
    if c = '_' then readMantissa hex cs { m with underscores := true }
    else if c = '.' then
      (if m.sawdot then (m, c :: cs)
       else readMantissa hex cs { m with sawdot := true, dp := m.nd })
    else if isDigit c then
      (if c = '0' ∧ m.nd = 0 then
         readMantissa hex cs { m with sawdigits := true, dp := m.dp - 1 }
       else
         readMantissa hex cs
           { m with sawdigits := true, nd := m.nd + 1,
                    mantissa := m.mantissa * (if hex then 16 else 10) + digitVal c })
    else if hex ∧ isHexLetter c then
      readMantissa hex cs
        { m with sawdigits := true, nd := m.nd + 1, mantissa := m.mantissa * 16 + hexLetterVal c }
    else (m, c :: cs)

/-- The exponent digit loop of `readFloat` (the value saturates once it has
reached 10000): exponent, whether an underscore was met, remaining bytes. -/
def readExpDigits : List Char → Nat → Bool → Nat × Bool × List Char
  | [], e, u => (e, u, [])
  | c :: cs, e, u =>
    if c = '_' then readExpDigits cs e true
    else if isDigit c then readExpDigits cs (if e < 10000 then e * 10 + digitVal c else e) u
    else (e, u, c :: cs)

/-- `underscoreOK`, after the optional sign and base marker: `saw` is 0 at the
beginning, 1 after a digit, 2 after an underscore, 3 after anything else. -/
def underscoreLoop (hex : Bool) : List Char → Nat → Bool
  | [], saw => saw != 2
  | c :: cs, saw =>
    if isDigit c ∨ (hex ∧ isHexLetter c) then underscoreLoop hex cs 1
    else if c = '_' then (if saw != 1 then false else underscoreLoop hex cs 2)
    else if saw = 2 then false
    else underscoreLoop hex cs 3

/-- `underscoreOK(s)`. -/
def underscoreOK (s : List Char) : Bool :=
  let s := match s with
    | c :: cs => if c = '-' ∨ c = '+' then cs else c :: cs
    | [] => []
  match s with
  | c0 :: c1 :: cs =>
    if c0 = '0' ∧ (c1 = 'b' ∨ c1 = 'B' ∨ c1 = 'o' ∨ c1 = 'O' ∨ c1 = 'x' ∨ c1 = 'X') then
      underscoreLoop (c1 = 'x' ∨ c1 = 'X') cs 1
    else underscoreLoop false (c0 :: c1 :: cs) 0
  | s => underscoreLoop false s 0

/-- What `readFloat` hands over when it accepts: sign, base, mantissa and the
exponent of the base (10, or 2 for hexadecimal input), and the unread bytes. -/
structure Read where
  neg : Bool
  hex : Bool
  mantissa : Nat
  exp : Int
  rest : List Char
  deriving DecidableEq, Repr

/-- `readFloat(s)`; `none` when it reports `ok = false`. -/
def readFloat (s : List Char) : Option Read :=
  match s with
  | [] => none
  | c :: cs =>
    let neg : Bool := c = '-'
    let s1 := if c = '+' ∨ c = '-' then cs else c :: cs
    let hex : Bool := match s1 with
      | c0 :: c1 :: _ :: _ => c0 = '0' ∧ (c1 = 'x' ∨ c1 = 'X')
      | _ => false
    let s2 := if hex then s1.drop 2 else s1
    let (m, s3) := readMantissa hex s2 {}
    if ¬ m.sawdigits then none else
    let dp0 : Int := if m.sawdot then m.dp else m.nd
    let dp1 : Int := if hex then dp0 * 4 else dp0
    let nd1 : Int := if hex then (m.nd : Int) * 4 else m.nd
    let finish (dp : Int) (u : Bool) (rest : List Char) : Option Read :=
      if u ∧ ¬ underscoreOK (s.take (s.length - rest.length)) then none
      else some ⟨neg, hex, m.mantissa, if m.mantissa ≠ 0 then dp - nd1 else 0, rest⟩
    match s3 with
    | x :: xs =>
      if (if hex then x = 'p' ∨ x = 'P' else x = 'e' ∨ x = 'E') then
        match xs with
        | [] => none
        | y :: ys =>
          let esign : Int := if y = '-' then -1 else 1
          let s4 := if y = '+' ∨ y = '-' then ys else y :: ys
          match s4 with
          | [] => none
          | z :: _ =>
            if ¬ isDigit z then none else
            let (e, u, rest) := readExpDigits s4 0 m.underscores
            finish (dp1 + e * esign) u rest
      else if hex then none
      else finish dp1 m.underscores (x :: xs)
    | [] => if hex then none else finish dp1 m.underscores []

/-- `strconv.ParseFloat(s, 64)`. -/
def ParseFloat (s : String) : Except GoError Float64 :=
  match special s.data with
  | some (f, n) => if n = s.data.length then .ok f else .error (syntaxError "ParseFloat" s)
  | none =>
    match readFloat s.data with
    | none => .error (syntaxError "ParseFloat" s)
    | some r =>
      if r.rest ≠ [] then .error (syntaxError "ParseFloat" s) else
      let base : Nat := if r.hex then 2 else 10
      let (f, ovf) :=
        if 0 ≤ r.exp then Float64.round r.neg (r.mantissa * base ^ r.exp.toNat) 1
        else Float64.round r.neg r.mantissa (base ^ (-r.exp).toNat)
      if ovf then .error (rangeError "ParseFloat" s) else .ok f

end strconv

/-! ## TypedValue converter -/

/-- `type Xtype byte`. -/
abbrev Xtype := Fin 256

/-- The cell type tags, numbered as excelize's `CellType` constants are. -/
def XtypeUnset : Xtype := 0
def XtypeBool : Xtype := 1
def XtypeDate : Xtype := 2
def XtypeError : Xtype := 3
def XtypeFormula : Xtype := 4
def XtypeInlineString : Xtype := 5
def XtypeNumber : Xtype := 6
def XtypeSharedString : Xtype := 7

/-- The dynamic values (`any`) that `Convert` produces. -/
inductive GoAny where
  | null
  | bool (b : Bool)
  | float64 (f : Float64)
  | int64 (i : Int)
  | string (s : String)
  deriving DecidableEq, Repr

structure TypedValue where
  Raw : String
  Typ : Xtype
  deriving DecidableEq, Repr

namespace TypedValue

def ConvertUnset (_ : TypedValue) : Except GoError GoAny := .ok .null

def ConvertBool (v : TypedValue) : Except GoError Bool := strconv.ParseBool v.Raw

def ConvertNumber (v : TypedValue) : Except GoError Float64 := strconv.ParseFloat v.Raw

def ConvertString (v : TypedValue) : Except GoError String := .ok v.Raw

def TryConvertUnset (v : TypedValue) : Except GoError GoAny :=
  if "" = v.Raw then v.ConvertUnset
  else
    match strconv.ParseFloat v.Raw with
    | .ok f => .ok (.float64 f)
    | .error _ =>
      match strconv.ParseBool v.Raw with
      | .ok b => .ok (.bool b)
      | .error _ =>
        match strconv.ParseInt v.Raw with
        | .ok i => .ok (.int64 i)
        | .error _ => .ok (.string v.Raw)

def Convert (v : TypedValue) : Except GoError GoAny :=
  if v.Typ = XtypeUnset then v.TryConvertUnset
  else if v.Typ = XtypeBool then v.ConvertBool.map GoAny.bool
  else if v.Typ = XtypeDate then v.ConvertString.map GoAny.string
  else if v.Typ = XtypeError then v.ConvertString.map GoAny.string
  else if v.Typ = XtypeFormula then v.ConvertString.map GoAny.string
  else if v.Typ = XtypeInlineString then v.ConvertString.map GoAny.string
  else if v.Typ = XtypeNumber then v.ConvertNumber.map GoAny.float64
  else if v.Typ = XtypeSharedString then v.ConvertString.map GoAny.string
  else v.ConvertString.map GoAny.string

end TypedValue

/-! ## The spreadsheet decoder (library model) -/

abbrev SheetName := String
abbrev CellAddress := String

/-- One physical row as the decoder's cursor presents it once `Rows.Next` has
moved onto it: what `Rows.Error()` reports there, and the two results of
`Rows.Columns()`. -/
structure SrcRow where
  err : Option GoError := none
  cols : List String := []
  colsErr : Option GoError := none
  deriving DecidableEq, Repr

/-- An opened workbook (`*excelize.File`): `Rows(sheet)` opens a fresh cursor
over the physical rows of the sheet, `GetCellType(sheet, addr)` reports the
type tag stored at a cell address. -/
structure File where
  Rows : SheetName → Except GoError (List SrcRow)
  GetCellType : SheetName → CellAddress → Except GoError Xtype

/-- Largest number of rows of a sheet (`excelize.TotalRows`). -/
def TotalRows : Nat := 1048576

/-- Largest column number of a sheet (`excelize.MaxColumns`). -/
def MaxColumns : Nat := 16384

/-- The letters of a column number, `fuel` bounding the number of letters. -/
def columnLetters : Nat → Nat → List Char → List Char
  | 0, _, acc => acc
  | fuel + 1, num, acc =>
    if num = 0 then acc
    else columnLetters fuel ((num - 1) / 26) (Char.ofNat ((num - 1) % 26 + 65) :: acc)

/-- `excelize.ColumnNumberToName`. -/
def ColumnNumberToName (num : Int) : Except GoError String :=
  if num < 1 ∨ (MaxColumns : Int) < num then
    .error (.source "the column number must be greater than or equal to 1 and less than or equal to 16384")
  else .ok (String.mk (columnLetters num.toNat num.toNat []))

/-- `excelize.CoordinatesToCellName(col, row, false)`: a row number past
`TotalRows` is refused (`excelize.ErrMaxRows`). -/
def CoordinatesToCellName (col row : Int) : Except GoError CellAddress :=
  if col < 1 ∨ row < 1 then
    .error (.source ("invalid cell reference [" ++ toString col ++ ", " ++ toString row ++ "]"))
  else if (TotalRows : Int) < row then .error (.source "row number exceeds maximum limit")
  else (ColumnNumberToName col).map (fun name => name ++ toString row)

/-! ## Rows and push iterators -/

structure Row where
  Index : Int := 0
  Columns : List String := []
  deriving DecidableEq, Repr

/-- The body of a `for k, e := range seq` loop, as the `yield` callback the
iterator is run with: from the consumer's state and the pair handed over, the
consumer's next state and whether it asks for more. -/
abbrev Yield (σ α : Type) := σ → α → Option GoError → σ × Bool

/-- The consumer that keeps every pair and never stops. -/
def collect {α : Type} : Yield (List (α × Option GoError)) α :=
  fun acc a e => (acc ++ [(a, e)], true)

/-- A row cursor (`Xrows`, wrapping `*excelize.Rows`): the physical rows that
`Next` has not reached yet, and how many times `Close` has been called. -/
structure Xrows where
  pending : List SrcRow
  closed : Nat := 0
  deriving DecidableEq, Repr

/-- How the skipping loop of `ToIter` ends. -/
inductive Skipped where
  /-- `Next` reported the end of the rows. -/
  | exhausted
  /-- `Error` reported `e`; `rest` are the rows not reached. -/
  | failed (e : GoError) (rest : List SrcRow)
  /-- The loop condition failed with the counter at `cur`. -/
  | done (cur : Int) (rest : List SrcRow)
  deriving DecidableEq, Repr

namespace Xrows

/-- The loop `for currentPhysicalRow <= skipRows` of `ToIter`. -/
def skipLoop (skipRows : Int) : Int → List SrcRow → Skipped
  | cur, [] => if cur ≤ skipRows then .exhausted else .done cur []
  | cur, r :: rs =>
    if cur ≤ skipRows then
      match r.err with
      | some e => .failed e rs
      | none => skipLoop skipRows (cur + 1) rs
    else .done cur (r :: rs)

/-- The loop `for r.Rows.Next()` of `ToIter`: the consumer's state and the rows
not reached when it ends. -/
def yieldLoop {σ : Type} (yield : Yield σ Row) : Int → List SrcRow → σ → σ × List SrcRow
  | _, [], s => (s, [])
  | cur, r :: rs, s =>
    match r.err with
    | some e => ((yield s {} (some e)).1, rs)
    | none =>
      if (yield s { Index := cur, Columns := r.cols } r.colsErr).2 then
        yieldLoop yield (cur + 1) rs (yield s { Index := cur, Columns := r.cols } r.colsErr).1
      else ((yield s { Index := cur, Columns := r.cols } r.colsErr).1, rs)

/-- One run of the sequence `Xrows.ToIter(skipRows)` against a consumer: the
consumer's final state and the cursor as the run leaves it (the deferred
`Close` included). -/
def ToIter {σ : Type} (r : Xrows) (skipRows : Int) (yield : Yield σ Row) (s : σ) : σ × Xrows :=
  let out : σ × List SrcRow :=
    match skipLoop skipRows 1 r.pending with
    | .exhausted => (s, [])
    | .failed e rest => ((yield s {} (some e)).1, rest)
    | .done cur rest => yieldLoop yield cur rest s
  (out.1, { pending := out.2, closed := r.closed + 1 })

end Xrows

/-! ## The sequencer with its calls recorded -/

/-- What one run of the sequence of `Xrows.ToIter` does to its cursor and to
its consumer, one entry per call. -/
inductive Event where
  /-- A call of `r.Rows.Next()` and its answer. -/
  | next (more : Bool)
  /-- A call of `r.Rows.Error()` and its answer. -/
  | error (e : Option GoError)
  /-- A call of `r.Rows.Columns()`. -/
  | columns
  /-- A call of `yield` with its two arguments and its answer. -/
  | yielded (row : Row) (err : Option GoError) (more : Bool)
  /-- The call of `r.Close()` in the deferred function. -/
  | close
  deriving DecidableEq, Repr

/-- The pair a `yield` call hands over. -/
def Event.pair : Event → Option (Row × Option GoError)
  | .yielded row err _ => some (row, err)
  | _ => none

/-- A consumer that behaves as `yield` does and keeps the pairs it is handed. -/
def recording {σ : Type} (yield : Yield σ Row) : Yield (σ × List (Row × Option GoError)) Row :=
  fun st row e => (((yield st.1 row e).1, st.2 ++ [(row, e)]), (yield st.1 row e).2)

namespace Xrows

/-- The loop `for currentPhysicalRow <= skipRows` of `ToIter` as `skipLoop`
runs it, with the calls it makes, in order. -/
def skipLoopTrace (skipRows : Int) : Int → List SrcRow → Skipped × List Event
  | cur, [] => if cur ≤ skipRows then (.exhausted, [.next false]) else (.done cur [], [])
  | cur, r :: rs =>
    if cur ≤ skipRows then
      match r.err with
      | some e => (.failed e rs, [.next true, .error (some e)])
      | none =>
        ((skipLoopTrace skipRows (cur + 1) rs).1,
         .next true :: .error none :: (skipLoopTrace skipRows (cur + 1) rs).2)
    else (.done cur (r :: rs), [])

/-- The loop `for r.Rows.Next()` of `ToIter` as `yieldLoop` runs it, with the
calls it makes, in order. -/
def yieldLoopTrace {σ : Type} (yield : Yield σ Row) :
    Int → List SrcRow → σ → (σ × List SrcRow) × List Event
  | _, [], s => ((s, []), [.next false])
  | cur, r :: rs, s =>
    match r.err with
    | some e =>
      (((yield s {} (some e)).1, rs),
       [.next true, .error (some e), .yielded {} (some e) (yield s {} (some e)).2])
    | none =>
      if (yield s { Index := cur, Columns := r.cols } r.colsErr).2 then
        ((yieldLoopTrace yield (cur + 1) rs
            (yield s { Index := cur, Columns := r.cols } r.colsErr).1).1,
         .next true :: .error none :: .columns
           :: .yielded { Index := cur, Columns := r.cols } r.colsErr true
           :: (yieldLoopTrace yield (cur + 1) rs
                (yield s { Index := cur, Columns := r.cols } r.colsErr).1).2)
      else
        (((yield s { Index := cur, Columns := r.cols } r.colsErr).1, rs),
         [.next true, .error none, .columns,
          .yielded { Index := cur, Columns := r.cols } r.colsErr false])

/-- One run of the sequence `Xrows.ToIter(skipRows)` with the calls it makes,
in order. The deferred function runs when the body of the sequence returns, on
whichever path: its `Close` is recorded behind the calls of the two loops. -/
def ToIterTrace {σ : Type} (r : Xrows) (skipRows : Int) (yield : Yield σ Row) (s : σ) :
    (σ × Xrows) × List Event :=
  let body : (σ × List SrcRow) × List Event :=
    match skipLoopTrace skipRows 1 r.pending with
    | (.exhausted, calls) => ((s, []), calls)
    | (.failed e rest, calls) =>
      (((yield s {} (some e)).1, rest), calls ++ [.yielded {} (some e) (yield s {} (some e)).2])
    | (.done cur rest, calls) =>
      ((yieldLoopTrace yield cur rest s).1, calls ++ (yieldLoopTrace yield cur rest s).2)
  ((body.1.1, { pending := body.1.2, closed := r.closed + 1 }), body.2 ++ [.close])

end Xrows

/-! ## Go maps -/

/-- A Go `map[string]V` as an association list without repeated keys, in
order of first insertion. -/
abbrev GoMap (V : Type) := List (String × V)

/-- The assignment `m[k] = v`. -/
def GoMap.set {V : Type} : GoMap V → String → V → GoMap V
  | [], k, v => [(k, v)]
  | (k0, v0) :: m, k, v => if k0 = k then (k0, v) :: m else (k0, v0) :: GoMap.set m k v

/-- The lookup `m[k]`. -/
def GoMap.get {V : Type} : GoMap V → String → Option V
  | [], _ => none
  | (k0, v0) :: m, k => if k0 = k then some v0 else GoMap.get m k

/-! ## Object assemblers on a cursor -/

/-- The error of a data row whose column count differs from the header count. -/
def columnCountError (colcnt hdrcnt : Nat) : GoError :=
  .wrapf (ErrInvalidColumnCount.Error ++ ": column count=" ++ toString colcnt
            ++ ", header count=" ++ toString hdrcnt)
    ErrInvalidColumnCount

/-- The loop variables of an assembler around the outer consumer's state. -/
structure Assembling (V σ : Type) where
  buf : GoMap V := []
  firstRowSkipped : Bool := false
  out : σ

/-- The loop `for i := range colcnt` of `ToRawObjects`, entered with as many
columns as headers. -/
def fillRaw : List String → List String → GoMap String → GoMap String
  | hdr :: hs, col :: cs, buf => fillRaw hs cs (GoMap.set buf hdr col)
  | _, _, buf => buf

/-- The loop `for i := range colcnt` of `ToObjects`, entered with as many
columns and types as headers; it stops at the first failing conversion. -/
def fillTyped : List String → List String → List Xtype → GoMap GoAny → Except GoError (GoMap GoAny)
  | hdr :: hs, col :: cs, typ :: ts, buf =>
    match (TypedValue.mk col typ).Convert with
    | .error e => .error e
    | .ok converted => fillTyped hs cs ts (GoMap.set buf hdr converted)
  | _, _, _, buf => .ok buf

namespace Xrows

/-- The body of the `range rows` loop of `ToRawObjects`. A record is handed to
the consumer as the content of `buf` at that moment. -/
def rawStep {σ : Type} (headers : List String) (yield : Yield σ (Option (GoMap String))) :
    Yield (Assembling String σ) Row :=
  fun st row e =>
    match e with
    | some e => ({ st with buf := [], out := (yield st.out none (some e)).1 }, false)
    | none =>
      if ¬ st.firstRowSkipped then ({ st with buf := [], firstRowSkipped := true }, true)
      else if row.Columns.length ≠ headers.length then
        ({ st with buf := [],
                   out := (yield st.out none
                            (some (columnCountError row.Columns.length headers.length))).1 },
         false)
      else
        let buf := fillRaw headers row.Columns []
        ({ st with buf := buf, out := (yield st.out (some buf) none).1 },
         (yield st.out (some buf) none).2)

/-- One run of the sequence `Xrows.ToRawObjects(headers, skipRows)`. -/
def ToRawObjects {σ : Type} (r : Xrows) (headers : List String) (skipRows : Int)
    (yield : Yield σ (Option (GoMap String))) (s : σ) : σ × Xrows :=
  let ran := r.ToIter skipRows (rawStep headers yield) { out := s }
  (ran.1.out, ran.2)

/-- The body of the `range rows` loop of `ToObjects`. -/
def typedStep {σ : Type} (headers : List String) (typs : List Xtype)
    (yield : Yield σ (Option (GoMap GoAny))) : Yield (Assembling GoAny σ) Row :=
  fun st row e =>
    match e with
    | some e => ({ st with buf := [], out := (yield st.out none (some e)).1 }, false)
    | none =>
      if ¬ st.firstRowSkipped then ({ st with buf := [], firstRowSkipped := true }, true)
      else if row.Columns.length ≠ headers.length then
        ({ st with buf := [],
                   out := (yield st.out none
                            (some (columnCountError row.Columns.length headers.length))).1 },
         false)
      else
        match fillTyped headers row.Columns typs [] with
        | .error e => ({ st with buf := [], out := (yield st.out none (some e)).1 }, false)
        | .ok buf =>
          ({ st with buf := buf, out := (yield st.out (some buf) none).1 },
           (yield st.out (some buf) none).2)

/-- One run of the sequence `Xrows.ToObjects(headers, typs, skipRows)`. -/
def ToObjects {σ : Type} (r : Xrows) (headers : List String) (typs : List Xtype) (skipRows : Int)
    (yield : Yield σ (Option (GoMap GoAny))) (s : σ) : σ × Xrows :=
  if headers.length ≠ typs.length then ((yield s none (some ErrUnexpectedTypCount)).1, r)
  else
    let ran := r.ToIter skipRows (typedStep headers typs yield) { out := s }
    (ran.1.out, ran.2)

end Xrows

/-! ## The workbook level -/

/-- What a call on a workbook leaves behind: its result and, in the order they
were opened, the row cursors it opened, each in its final state. -/
structure Ran (α : Type) where
  out : α
  cursors : List Xrows

structure Xfile where
  File : File

namespace Xfile

def CellType (x : Xfile) (sheet : SheetName) (addr : CellAddress) : Except GoError Xtype :=
  x.File.GetCellType sheet addr

/-- `row` is a `RowIndex` (`uint32`) and `col` a `ColIndex` (`uint16`). -/
def CellTypeByIndex (x : Xfile) (sheet : SheetName) (row col : Nat) : Except GoError Xtype :=
  match CoordinatesToCellName col row with
  | .error err => .error err
  | .ok addr => x.CellType sheet addr

/-- The loop body of `ToHeader`: it returns at the first pair. -/
def headerStep : Yield (Option (Except GoError (List String))) Row :=
  fun _ row e =>
    match e with
    | some e => (some (.error e), false)
    | none => (some (.ok row.Columns), false)

def ToHeader (x : Xfile) (sheet : SheetName) (skipRows : Int) : Ran (Except GoError (List String)) :=
  match x.File.Rows sheet with
  | .error e => ⟨.error e, []⟩
  | .ok rowsExcel =>
    let ran := Xrows.ToIter { pending := rowsExcel } skipRows headerStep none
    match ran.1 with
    | some result => ⟨result, [ran.2]⟩
    | none =>
      ⟨.error (.wrapf (ErrUnableToGetHeader.Error ++ ": sheet=" ++ sheet) ErrUnableToGetHeader),
       [ran.2]⟩

/-- The loop of `ToTypedValue` from column index `colix` on. -/
def typedValueLoop (x : Xfile) (sheet : SheetName) (rowpos : Nat) :
    Nat → List String → Except GoError (List TypedValue)
  | _, [] => .ok []
  | colix, col :: rest =>
    if 65535 < colix then .error ErrTooManyColumns
    else
      match x.CellTypeByIndex sheet rowpos ((colix % 2 ^ 16 + 1) % 2 ^ 16) with
      | .error e => .error e
      | .ok xtyp =>
        match typedValueLoop x sheet rowpos (colix + 1) rest with
        | .error e => .error e
        | .ok ret => .ok ({ Raw := col, Typ := xtyp } :: ret)

/-- `rowpos` is a `uint32`. -/
def ToTypedValue (x : Xfile) (sheet : SheetName) (rowpos : Nat) (values : List String) :
    Except GoError (List TypedValue) :=
  typedValueLoop x sheet rowpos 0 values

/-- The loop variables of `ToSampleRow`. -/
structure Sampling where
  rowCount : Int := 0
  result : Option (Except GoError (List TypedValue)) := none

/-- The loop body of `ToSampleRow`. -/
def sampleStep (x : Xfile) (sheet : SheetName) : Yield Sampling Row :=
  fun st row e =>
    match e with
    | some e => ({ st with result := some (.error e) }, false)
    | none =>
      if st.rowCount + 1 = 1 then ({ st with rowCount := st.rowCount + 1 }, true)
      else
        ({ rowCount := st.rowCount + 1,
           result := some (x.ToTypedValue sheet (row.Index % 2 ^ 32).toNat row.Columns) },
         false)

def ToSampleRow (x : Xfile) (sheet : SheetName) (skipRows : Int) :
    Ran (Except GoError (List TypedValue)) :=
  match x.File.Rows sheet with
  | .error e => ⟨.error e, []⟩
  | .ok rowsExcel =>
    let ran := Xrows.ToIter { pending := rowsExcel } skipRows (sampleStep x sheet) {}
    match ran.1.result with
    | some result => ⟨result, [ran.2]⟩
    | none => ⟨.error ErrNoSampleRow, [ran.2]⟩

/-- The call `x.ToRawObjects(sheet, skipRows)` followed by one run of the
sequence it returns. -/
def ToRawObjects {σ : Type} (x : Xfile) (sheet : SheetName) (skipRows : Int)
    (yield : Yield σ (Option (GoMap String))) (s : σ) : Ran σ :=
  let hdr := x.ToHeader sheet skipRows
  match hdr.out with
  | .error err => ⟨(yield s none (some err)).1, hdr.cursors⟩
  | .ok hdrs =>
    match x.File.Rows sheet with
    | .error err => ⟨(yield s none (some err)).1, hdr.cursors⟩
    | .ok rows =>
      let ran := Xrows.ToRawObjects { pending := rows } hdrs skipRows yield s
      ⟨ran.1, hdr.cursors ++ [ran.2]⟩

/-- The call `x.ToObjects(sheet, skipRows)` followed by one run of the sequence
it returns. -/
def ToObjects {σ : Type} (x : Xfile) (sheet : SheetName) (skipRows : Int)
    (yield : Yield σ (Option (GoMap GoAny))) (s : σ) : Ran σ :=
  let hdr := x.ToHeader sheet skipRows
  match hdr.out with
  | .error err => ⟨(yield s none (some err)).1, hdr.cursors⟩
  | .ok hdrs =>
    match x.File.Rows sheet with
    | .error err => ⟨(yield s none (some err)).1, hdr.cursors⟩
    | .ok rows =>
      let typed := x.ToSampleRow sheet skipRows
      match typed.out with
      | .error err =>
        ⟨(yield s none (some err)).1, hdr.cursors ++ [{ pending := rows }] ++ typed.cursors⟩
      | .ok typed0 =>
        let typs : List Xtype := typed0.map (fun typedVal => typedVal.Typ)
        let ran := Xrows.ToObjects { pending := rows } hdrs typs skipRows yield s
        ⟨ran.1, hdr.cursors ++ [ran.2] ++ typed.cursors⟩

end Xfile

/-! ## Sheets used in the statements -/

/-- A physical row that reports no error. -/
def SrcRow.clean (r : SrcRow) : Prop := r.err = none ∧ r.colsErr = none

instance (r : SrcRow) : Decidable r.clean := by unfold SrcRow.clean; infer_instance

/-- A source none of whose rows reports an error. -/
def errorFree (rows : List SrcRow) : Prop := ∀ r ∈ rows, r.clean

instance (rows : List SrcRow) : Decidable (errorFree rows) := by unfold errorFree; infer_instance

/-! ## Definitions used in the statements -/

/-- The rows a run hands over from counter value `cur` on. -/
def numbered : Int → List SrcRow → List Row
  | _, [] => []
  | cur, r :: rs => { Index := cur, Columns := r.cols } :: numbered (cur + 1) rs

/-- The error of `ToHeader` when no row is left after skipping. -/
def headerUnavailable (sheet : SheetName) : GoError :=
  .wrapf ("unable to get header: sheet=" ++ sheet) ErrUnableToGetHeader

/-- The sheet of the end-to-end example: a header row and two data rows. -/
def demoRows : List SrcRow :=
  [{ cols := ["id", "name", "score"] }, { cols := ["1", "Alice", "9.5"] },
   { cols := ["2", "Bob", "7"] }]

/-- A workbook whose only sheet is `Sheet1` with `demoRows`; the cells of the
second physical row are typed Number, SharedString, Number. -/
def demoWorkbook : File where
  Rows := fun sheet =>
    if sheet = "Sheet1" then Except.ok demoRows else Except.error (GoError.source "no such sheet")
  GetCellType := fun _ addr =>
    if addr = "A2" ∨ addr = "C2" then Except.ok XtypeNumber
    else if addr = "B2" then Except.ok XtypeSharedString
    else Except.ok XtypeUnset

def demoFile : Xfile := ⟨demoWorkbook⟩

/-- The literals `strconv.ParseBool` reads as true. -/
def trueLiterals : List String := ["1", "t", "T", "TRUE", "true", "True"]

/-- The literals `strconv.ParseBool` reads as false. -/
def falseLiterals : List String := ["0", "f", "F", "FALSE", "false", "False"]

/-- The conversion table of the specification for a declared type other than
Unset: Bool parses a boolean, Number parses a 64-bit float, every other tag
returns the raw string. -/
def referenceConvert (raw : String) (typ : Xtype) : Except GoError GoAny :=
  if typ = XtypeBool then (strconv.ParseBool raw).map GoAny.bool
  else if typ = XtypeNumber then (strconv.ParseFloat raw).map GoAny.float64
  else .ok (.string raw)

/-- The attempts of the Unset heuristic of the specification, in priority
order: float64, boolean, base-10 signed 64-bit integer. -/
def unsetAttempts : List (String → Option GoAny) :=
  [fun raw => (strconv.ParseFloat raw).toOption.map GoAny.float64,
   fun raw => (strconv.ParseBool raw).toOption.map GoAny.bool,
   fun raw => (strconv.ParseInt raw).toOption.map GoAny.int64]

/-- The Unset heuristic of the specification: null for the empty string,
otherwise the first attempt that succeeds, otherwise the raw string. -/
def referenceUnset (raw : String) : GoAny :=
  if raw = "" then .null
  else (unsetAttempts.findSome? (fun attempt => attempt raw)).getD (.string raw)

/-- The assignments `m[k] = v` for the pairs of `kvs`, in order. -/
def GoMap.setAll {V : Type} (m : GoMap V) (kvs : List (String × V)) : GoMap V :=
  kvs.foldl (fun acc kv => GoMap.set acc kv.1 kv.2) m

/-- The values `vals` are the conversions of the columns `cols` under the
types `typs`, position by position. -/
def convertsTo (cols : List String) (typs : List Xtype) (vals : List GoAny) : Prop :=
  List.Forall₂ (fun v ct => (TypedValue.mk ct.1 ct.2).Convert = .ok v) vals (List.zip cols typs)

/-- A source with one row to skip, a header of two columns, one full data row,
a short data row and one more full row. -/
def raggedRows : List SrcRow :=
  [{ cols := ["title"] }, { cols := ["a", "b"] }, { cols := ["1", "x"] }, { cols := ["2"] },
   { cols := ["3", "y"] }]

/-- A source with a header of two columns and three data rows, the second of
which holds a cell that is no boolean literal. -/
def badCellRows : List SrcRow :=
  [{ cols := ["n", "flag"] }, { cols := ["1", "true"] }, { cols := ["2", "maybe"] },
   { cols := ["3", "false"] }]

/-- The typed values of the sample row of `demoRows`. -/
def demoTyped : List TypedValue :=
  [{ Raw := "1", Typ := XtypeNumber }, { Raw := "Alice", Typ := XtypeSharedString },
   { Raw := "9.5", Typ := XtypeNumber }]

/-- A source whose second row fails in `Rows.Columns()` while the cursor can
still move on to a third row. -/
def columnsErrorRows : List SrcRow :=
  [{ cols := ["a"] }, { cols := ["x"], colsErr := some (.source "bad cell") }, { cols := ["y"] }]

/-- A source whose second row makes `Rows.Error()` report an error. -/
def rowErrorRows : List SrcRow :=
  [{ cols := ["a"] }, { cols := ["b"], err := some (.source "broken row") }, { cols := ["c"] }]

/-- A sheet whose sample row has three columns under a header of two. -/
def unevenRows : List SrcRow := [{ cols := ["a", "b"] }, { cols := ["1", "2", "3"] }]

/-- A workbook whose only sheet is `Sheet1` with `unevenRows`, every cell of
unset type. -/
def unevenWorkbook : File where
  Rows := fun sheet =>
    if sheet = "Sheet1" then Except.ok unevenRows else Except.error (GoError.source "no such sheet")
  GetCellType := fun _ _ => Except.ok XtypeUnset

def unevenFile : Xfile := ⟨unevenWorkbook⟩

/-- The value of the last column position whose header is `k`, if any. -/
def lastValue : List String → List String → String → Option String
  | h :: hs, c :: cs, k =>
    match lastValue hs cs k with
    | some v => some v
    | none => if h = k then some c else none
  | _, _, _ => none

/-- A source with a header that repeats a name and two data rows. -/
def repeatedHeaderRows : List SrcRow :=
  [{ cols := ["a", "b", "a"] }, { cols := ["1", "2", "3"] }, { cols := ["4", "5", "6"] }]

/-! # Properties -/

/-! ## Auxiliary facts: the row sequencer on an error-free source -/

theorem errorFree_cons {r : SrcRow} {rs : List SrcRow} :
    errorFree (r :: rs) ↔ r.clean ∧ errorFree rs := by
  simp [errorFree]

theorem errorFree_append {a b : List SrcRow} :
    errorFree (a ++ b) ↔ errorFree a ∧ errorFree b := by
  simp only [errorFree, List.mem_append]
  constructor
  · intro h
    exact ⟨fun r hr => h r (Or.inl hr), fun r hr => h r (Or.inr hr)⟩
  · rintro ⟨ha, hb⟩ r (hr | hr)
    · exact ha r hr
    · exact hb r hr

theorem errorFree_drop {rows : List SrcRow} (h : errorFree rows) (n : Nat) :
    errorFree (rows.drop n) :=
  fun r hr => h r (List.mem_of_mem_drop hr)

/-- Skipping `m` more rows of an error-free source. -/
theorem skipLoop_clean (skipRows : Int) :
    ∀ (m : Nat) (cur : Int) (rows : List SrcRow), cur + m = skipRows + 1 → errorFree rows →
      Xrows.skipLoop skipRows cur rows =
        if rows.length < m then Skipped.exhausted else Skipped.done (skipRows + 1) (rows.drop m) := by
  intro m
  induction m with
  | zero =>
    intro cur rows h _
    have hc : ¬ cur ≤ skipRows := by omega
    have hcur : cur = skipRows + 1 := by omega
    cases rows <;> simp [Xrows.skipLoop, hc, hcur]
  | succ m ih =>
    intro cur rows h hfree
    have hc : cur ≤ skipRows := by push_cast at h; omega
    cases rows with
    | nil => simp [Xrows.skipLoop, hc]
    | cons r rs =>
      obtain ⟨hr, hrs⟩ := errorFree_cons.mp hfree
      have hnext : cur + 1 + (m : Int) = skipRows + 1 := by push_cast at h; omega
      simp only [Xrows.skipLoop, hc, if_true, hr.1, List.length_cons, List.drop_succ_cons,
        Nat.add_lt_add_iff_right]
      exact ih (cur + 1) rs hnext hrs

/-- A negative skip count skips nothing. -/
theorem skipLoop_neg (skipRows : Int) (h : skipRows < 1) (rows : List SrcRow) :
    Xrows.skipLoop skipRows 1 rows = Skipped.done 1 rows := by
  have hc : ¬ (1 : Int) ≤ skipRows := by omega
  cases rows <;> simp [Xrows.skipLoop, hc]

/-- The collecting consumer receives every row of an error-free source. -/
theorem yieldLoop_collect_clean :
    ∀ (rows : List SrcRow) (cur : Int) (acc : List (Row × Option GoError)), errorFree rows →
      Xrows.yieldLoop collect cur rows acc =
        (acc ++ (numbered cur rows).map (fun row => (row, none)), []) := by
  intro rows
  induction rows with
  | nil => intro cur acc _; simp [Xrows.yieldLoop, numbered]
  | cons r rs ih =>
    intro cur acc hfree
    obtain ⟨hr, hrs⟩ := errorFree_cons.mp hfree
    have hstep : ∀ (a : List (Row × Option GoError)) (row : Row) (e : Option GoError),
        collect a row e = (a ++ [(row, e)], true) := fun _ _ _ => rfl
    simp only [Xrows.yieldLoop, hr.1, hr.2, hstep, if_true, numbered, List.map_cons]
    rw [ih (cur + 1) _ hrs]
    simp

theorem numbered_length (rows : List SrcRow) : ∀ cur, (numbered cur rows).length = rows.length := by
  induction rows with
  | nil => intro cur; rfl
  | cons r rs ih => intro cur; simp [numbered, ih]

theorem numbered_columns (rows : List SrcRow) :
    ∀ cur, (numbered cur rows).map (fun row => row.Columns) = rows.map (fun r => r.cols) := by
  induction rows with
  | nil => intro cur; rfl
  | cons r rs ih => intro cur; simp [numbered, ih]

/-- One run of `ToIter` over an error-free source, observed by the collecting
consumer. -/
theorem ToIter_collect_clean (rows : List SrcRow) (closed N : Nat) (hfree : errorFree rows) :
    (Xrows.ToIter { pending := rows, closed := closed } (N : Int) collect []).1 =
      (numbered ((N : Int) + 1) (rows.drop N)).map (fun row => (row, none)) := by
  have hskip := skipLoop_clean (N : Int) N 1 rows (by omega) hfree
  unfold Xrows.ToIter
  simp only [hskip]
  by_cases hlen : rows.length < N
  · have hdrop : rows.drop N = [] := List.drop_eq_nil_of_le (by omega)
    simp [hlen, hdrop, numbered]
  · simp only [hlen, if_false]
    rw [yieldLoop_collect_clean _ _ _ (errorFree_drop hfree N)]
    simp

/-- One run of `ToIter` over an error-free source against any consumer: the
rows after the skipped ones are offered from counter value `N + 1` on, and the
cursor is closed once. -/
theorem ToIter_clean {σ : Type} (r : Xrows) (N : Nat) (yield : Yield σ Row) (s : σ)
    (hfree : errorFree r.pending) :
    r.ToIter (N : Int) yield s =
      ((Xrows.yieldLoop yield ((N : Int) + 1) (r.pending.drop N) s).1,
       { pending := (Xrows.yieldLoop yield ((N : Int) + 1) (r.pending.drop N) s).2,
         closed := r.closed + 1 }) := by
  have hskip := skipLoop_clean (N : Int) N 1 r.pending (by omega) hfree
  unfold Xrows.ToIter
  simp only [hskip]
  by_cases hlen : r.pending.length < N
  · have hdrop : r.pending.drop N = [] := List.drop_eq_nil_of_le (by omega)
    simp [hlen, hdrop, Xrows.yieldLoop]
  · simp [hlen]

theorem drop_eq_cons_of_getElem_some {rows : List SrcRow} {N : Nat} {r : SrcRow}
    (h : rows[N]? = some r) : rows.drop N = r :: rows.drop (N + 1) := by
  obtain ⟨hlt, hget⟩ := List.getElem?_eq_some_iff.mp h
  rw [← hget]
  exact List.drop_eq_getElem_cons hlt

theorem drop_eq_nil_of_getElem_none {rows : List SrcRow} {N : Nat}
    (h : rows[N]? = none) : rows.drop N = [] :=
  List.drop_eq_nil_of_le (List.getElem?_eq_none_iff.mp h)

/-- Header resolution on an error-free sheet. -/
theorem ToHeader_clean (x : Xfile) (sheet : SheetName) (rows : List SrcRow) (N : Nat)
    (hrows : x.File.Rows sheet = .ok rows) (hfree : errorFree rows) :
    (x.ToHeader sheet (N : Int)).out =
      match rows[N]? with
      | some r => .ok r.cols
      | none => .error (headerUnavailable sheet) := by
  unfold Xfile.ToHeader
  simp only [hrows]
  rw [ToIter_clean _ N _ _ hfree]
  cases hN : rows[N]? with
  | none =>
    simp [drop_eq_nil_of_getElem_none hN, Xrows.yieldLoop, headerUnavailable, GoError.Error,
      ErrUnableToGetHeader]
  | some r =>
    have hr : r.clean := by
      obtain ⟨hlt, hget⟩ := List.getElem?_eq_some_iff.mp hN
      exact hfree r (hget ▸ List.getElem_mem hlt)
    simp [drop_eq_cons_of_getElem_some hN, Xrows.yieldLoop, hr.1, hr.2, Xfile.headerStep]

/-- C5. Over a source of R rows that reports no error, the sequence of
`Xrows.ToIter(N)` yields exactly max(R - N, 0) pairs: the k-th pair carries the
columns of physical row N + k and a nil error, in source order; when N >= R it
yields nothing. -/
theorem C5_ToIter_yields_rows_after_skip (rows : List SrcRow) (closed N : Nat)
    (hfree : errorFree rows) :
    ((Xrows.ToIter { pending := rows, closed := closed } (N : Int) collect []).1).length
        = rows.length - N ∧
    ((Xrows.ToIter { pending := rows, closed := closed } (N : Int) collect []).1).map
        (fun p => (p.1.Columns, p.2)) = (rows.drop N).map (fun r => (r.cols, none)) ∧
    (rows.length ≤ N →
      (Xrows.ToIter { pending := rows, closed := closed } (N : Int) collect []).1 = []) := by
  rw [ToIter_collect_clean rows closed N hfree]
  refine ⟨by simp [numbered_length], ?_, ?_⟩
  · rw [List.map_map]
    have h := numbered_columns (rows.drop N) ((N : Int) + 1)
    have h2 : ((fun p : Row × Option GoError => (p.1.Columns, p.2)) ∘ fun row : Row => (row, none))
        = (fun c : List String => (c, (none : Option GoError))) ∘ fun row : Row => row.Columns := rfl
    rw [h2, ← List.map_map, h, List.map_map]
    rfl
  · intro hle
    simp [List.drop_eq_nil_of_le hle, numbered]

/-- C6. On an error-free sheet of R rows, `Xfile.ToHeader` returns the columns
of physical row N + 1 when N < R, and otherwise an error that wraps
`ErrUnableToGetHeader` and whose message contains the sheet name. -/
theorem C6_ToHeader_first_row_or_unavailable (x : Xfile) (sheet : SheetName)
    (rows : List SrcRow) (N : Nat)
    (hrows : x.File.Rows sheet = .ok rows) (hfree : errorFree rows) :
    (∀ h : N < rows.length, (x.ToHeader sheet (N : Int)).out = .ok (rows.get ⟨N, h⟩).cols) ∧
    (rows.length ≤ N →
      ∃ e, (x.ToHeader sheet (N : Int)).out = .error e ∧
        e.Is ErrUnableToGetHeader = true ∧ containsText e.Error sheet) := by
  have hmain := ToHeader_clean x sheet rows N hrows hfree
  constructor
  · intro h
    rw [hmain, List.getElem?_eq_getElem h]
    rfl
  · intro hle
    rw [hmain, List.getElem?_eq_none_iff.mpr hle]
    refine ⟨headerUnavailable sheet, rfl, ?_, ?_⟩
    · simp [headerUnavailable, GoError.Is, ErrUnableToGetHeader]
    · show sheet.data <:+: ("unable to get header: sheet=" ++ sheet).data
      rw [String.data_append]
      exact (List.suffix_append _ _).isInfix

theorem C5_ToIter_yields_rows_after_skip_witness :
    errorFree demoRows ∧
    ((Xrows.ToIter { pending := demoRows, closed := 0 } ((1 : Nat) : Int) collect []).1).length
        = demoRows.length - 1 ∧
    ((Xrows.ToIter { pending := demoRows, closed := 0 } ((1 : Nat) : Int) collect []).1).map
        (fun p => (p.1.Columns, p.2)) = (demoRows.drop 1).map (fun r => (r.cols, none)) ∧
    (demoRows.length ≤ 1 →
      (Xrows.ToIter { pending := demoRows, closed := 0 } ((1 : Nat) : Int) collect []).1 = []) :=
  ⟨by decide, C5_ToIter_yields_rows_after_skip demoRows 0 1 (by decide)⟩

theorem C6_ToHeader_first_row_or_unavailable_witness :
    demoFile.File.Rows "Sheet1" = .ok demoRows ∧ errorFree demoRows ∧
    (∀ h : 0 < demoRows.length,
      (demoFile.ToHeader "Sheet1" ((0 : Nat) : Int)).out = .ok (demoRows.get ⟨0, h⟩).cols) ∧
    (demoRows.length ≤ 0 →
      ∃ e, (demoFile.ToHeader "Sheet1" ((0 : Nat) : Int)).out = .error e ∧
        e.Is ErrUnableToGetHeader = true ∧ containsText e.Error "Sheet1") :=
  ⟨by decide, by decide,
    C6_ToHeader_first_row_or_unavailable demoFile "Sheet1" demoRows 0 (by decide) (by decide)⟩

/-! ## The converter -/

theorem ParseBool_error_iff (raw : String) :
    (∃ e, strconv.ParseBool raw = .error e) ↔ raw ∉ trueLiterals ++ falseLiterals := by
  unfold strconv.ParseBool
  simp only [trueLiterals, falseLiterals, List.cons_append, List.nil_append, List.mem_cons,
    List.mem_singleton, List.not_mem_nil, or_false]
  split
  · rename_i h
    constructor
    · rintro ⟨e, he⟩; cases he
    · intro hn; exact absurd (by tauto) hn
  · rename_i h
    split
    · rename_i h2
      constructor
      · rintro ⟨e, he⟩; cases he
      · intro hn; exact absurd (by tauto) hn
    · rename_i h2
      constructor
      · intro _; tauto
      · intro _; exact ⟨_, rfl⟩

theorem ParseBool_ok_iff (raw : String) (b : Bool) :
    strconv.ParseBool raw = .ok b ↔ raw ∈ (if b then trueLiterals else falseLiterals) := by
  unfold strconv.ParseBool
  by_cases h1 : raw = "1" ∨ raw = "t" ∨ raw = "T" ∨ raw = "true" ∨ raw = "TRUE" ∨ raw = "True"
  · rw [if_pos h1]
    cases b
    · simp only [Bool.false_eq_true, if_false, falseLiterals]
      constructor
      · intro h; cases h
      · intro hm
        rcases h1 with h | h | h | h | h | h <;> subst h <;> revert hm <;> decide
    · simp only [if_true, trueLiterals, List.mem_cons, List.mem_singleton, List.not_mem_nil,
        or_false]
      constructor
      · intro _; tauto
      · intro _; trivial
  · rw [if_neg h1]
    by_cases h2 : raw = "0" ∨ raw = "f" ∨ raw = "F" ∨ raw = "false" ∨ raw = "FALSE" ∨ raw = "False"
    · rw [if_pos h2]
      cases b
      · simp only [Bool.false_eq_true, if_false, falseLiterals, List.mem_cons, List.mem_singleton,
          List.not_mem_nil, or_false]
        constructor
        · intro _; tauto
        · intro _; trivial
      · simp only [if_true, trueLiterals, List.mem_cons, List.mem_singleton, List.not_mem_nil,
          or_false]
        constructor
        · intro h; cases h
        · intro hm; exact absurd (by tauto) h1
    · rw [if_neg h2]
      constructor
      · intro h; cases h
      · intro hm
        cases b
        · simp only [Bool.false_eq_true, if_false, falseLiterals, List.mem_cons,
            List.mem_singleton, List.not_mem_nil, or_false] at hm
          exact absurd (by tauto) h2
        · simp only [if_true, trueLiterals, List.mem_cons, List.mem_singleton, List.not_mem_nil,
            or_false] at hm
          exact absurd (by tauto) h1

/-- C3. For a declared type other than Unset, `TypedValue.Convert` follows the
reference table: Bool gives the boolean parse of raw and fails exactly when raw
is not a boolean literal; Number gives the 64-bit float parse of raw and fails
exactly when that parse fails; the empty string fails under both; every other
tag, known or unknown, returns raw unchanged and never fails. -/
theorem C3_Convert_follows_reference_table (raw : String) (typ : Xtype)
    (htyp : typ ≠ XtypeUnset) :
    (TypedValue.mk raw typ).Convert = referenceConvert raw typ ∧
    (typ = XtypeBool →
      (∀ b, (TypedValue.mk raw typ).Convert = .ok (.bool b) ↔
          raw ∈ (if b then trueLiterals else falseLiterals)) ∧
      ((∃ e, (TypedValue.mk raw typ).Convert = .error e) ↔
          raw ∉ trueLiterals ++ falseLiterals) ∧
      ∃ e, (TypedValue.mk "" typ).Convert = .error e) ∧
    (typ = XtypeNumber →
      (∀ f, (TypedValue.mk raw typ).Convert = .ok (.float64 f) ↔ strconv.ParseFloat raw = .ok f) ∧
      (∀ e, (TypedValue.mk raw typ).Convert = .error e ↔ strconv.ParseFloat raw = .error e) ∧
      ∃ e, (TypedValue.mk "" typ).Convert = .error e) ∧
    (typ ≠ XtypeBool → typ ≠ XtypeNumber → (TypedValue.mk raw typ).Convert = .ok (.string raw)) := by
  have hother : ∀ r : String, typ ≠ XtypeBool → typ ≠ XtypeNumber →
      (TypedValue.mk r typ).Convert = .ok (.string r) := by
    intro r hb hn
    simp only [TypedValue.Convert, htyp, hb, hn, if_false, TypedValue.ConvertString, ite_self]
    rfl
  have hbool : ∀ r : String, (TypedValue.mk r XtypeBool).Convert
      = (strconv.ParseBool r).map GoAny.bool := by
    intro r; rfl
  have hnum : ∀ r : String, (TypedValue.mk r XtypeNumber).Convert
      = (strconv.ParseFloat r).map GoAny.float64 := by
    intro r; rfl
  refine ⟨?_, ?_, ?_, hother raw⟩
  · by_cases hb : typ = XtypeBool
    · subst hb; rw [hbool]; rfl
    · by_cases hn : typ = XtypeNumber
      · subst hn; rw [hnum]; rfl
      · rw [hother raw hb hn]
        simp [referenceConvert, hb, hn]
  · intro hb
    subst hb
    refine ⟨?_, ?_, ?_⟩
    · intro b
      rw [hbool, ← ParseBool_ok_iff]
      cases h : strconv.ParseBool raw <;> simp [Except.map]
    · rw [hbool, ← ParseBool_error_iff]
      cases h : strconv.ParseBool raw <;> simp [Except.map]
    · exact ⟨_, rfl⟩
  · intro hn
    subst hn
    refine ⟨?_, ?_, ?_⟩
    · intro f
      rw [hnum]
      cases h : strconv.ParseFloat raw <;> simp [Except.map]
    · intro e
      rw [hnum]
      cases h : strconv.ParseFloat raw <;> simp [Except.map]
    · exact ⟨strconv.syntaxError "ParseFloat" "", by decide⟩

theorem C3_Convert_follows_reference_table_witness :
    XtypeNumber ≠ XtypeUnset ∧
    (TypedValue.mk "9.5" XtypeNumber).Convert = referenceConvert "9.5" XtypeNumber ∧
    (XtypeNumber = XtypeBool →
      (∀ b, (TypedValue.mk "9.5" XtypeNumber).Convert = .ok (.bool b) ↔
          "9.5" ∈ (if b then trueLiterals else falseLiterals)) ∧
      ((∃ e, (TypedValue.mk "9.5" XtypeNumber).Convert = .error e) ↔
          "9.5" ∉ trueLiterals ++ falseLiterals) ∧
      ∃ e, (TypedValue.mk "" XtypeNumber).Convert = .error e) ∧
    (XtypeNumber = XtypeNumber →
      (∀ f, (TypedValue.mk "9.5" XtypeNumber).Convert = .ok (.float64 f) ↔
          strconv.ParseFloat "9.5" = .ok f) ∧
      (∀ e, (TypedValue.mk "9.5" XtypeNumber).Convert = .error e ↔
          strconv.ParseFloat "9.5" = .error e) ∧
      ∃ e, (TypedValue.mk "" XtypeNumber).Convert = .error e) ∧
    (XtypeNumber ≠ XtypeBool → XtypeNumber ≠ XtypeNumber →
      (TypedValue.mk "9.5" XtypeNumber).Convert = .ok (.string "9.5")) :=
  ⟨by decide, C3_Convert_follows_reference_table "9.5" XtypeNumber (by decide)⟩

/-- C4. With declared type Unset, `TypedValue.Convert` never fails: it returns
null for the empty string, and otherwise the first success among the float64
parse, the boolean parse and the base-10 int64 parse, in that order, and raw
itself as a string when none succeeds. -/
theorem C4_Convert_unset_first_success (raw : String) :
    (TypedValue.mk raw XtypeUnset).Convert = .ok (referenceUnset raw) := by
  have h0 : (TypedValue.mk raw XtypeUnset).Convert = (TypedValue.mk raw XtypeUnset).TryConvertUnset :=
    rfl
  rw [h0]
  unfold TypedValue.TryConvertUnset referenceUnset
  by_cases he : raw = ""
  · subst he; rfl
  · have he2 : ¬ "" = raw := fun h => he h.symm
    simp only [he, he2, if_false, unsetAttempts, List.findSome?]
    cases hf : strconv.ParseFloat raw with
    | ok f => simp [Except.toOption]
    | error e1 =>
      cases hb : strconv.ParseBool raw with
      | ok b => simp [Except.toOption]
      | error e2 =>
        cases hi : strconv.ParseInt raw with
        | ok i => simp [Except.toOption]
        | error e3 => simp [Except.toOption]

/-! ## Sample resolution -/

theorem mem_of_getElem_some {rows : List SrcRow} {N : Nat} {r : SrcRow}
    (h : rows[N]? = some r) : r ∈ rows := by
  obtain ⟨hlt, hget⟩ := List.getElem?_eq_some_iff.mp h
  exact hget ▸ List.getElem_mem hlt

/-- Sample resolution on an error-free sheet: the second row after the skipped
ones is typed at the counter value it was yielded with. -/
theorem ToSampleRow_clean (x : Xfile) (sheet : SheetName) (rows : List SrcRow) (N : Nat)
    (hrows : x.File.Rows sheet = .ok rows) (hfree : errorFree rows) :
    (x.ToSampleRow sheet (N : Int)).out =
      match rows[N + 1]? with
      | some r => x.ToTypedValue sheet (((N : Int) + 1 + 1) % 2 ^ 32).toNat r.cols
      | none => .error ErrNoSampleRow := by
  unfold Xfile.ToSampleRow
  simp only [hrows]
  rw [ToIter_clean _ N _ _ hfree]
  cases hN : rows[N]? with
  | none =>
    have hN1 : rows[N + 1]? = none := by
      rw [List.getElem?_eq_none_iff] at hN ⊢; omega
    simp [drop_eq_nil_of_getElem_none hN, hN1, Xrows.yieldLoop]
  | some hdr =>
    have hh : hdr.clean := hfree hdr (mem_of_getElem_some hN)
    cases hN1 : rows[N + 1]? with
    | none =>
      simp [drop_eq_cons_of_getElem_some hN, drop_eq_nil_of_getElem_none hN1, Xrows.yieldLoop,
        hh.1, hh.2, Xfile.sampleStep]
    | some r =>
      have hr : r.clean := hfree r (mem_of_getElem_some hN1)
      simp [drop_eq_cons_of_getElem_some hN, drop_eq_cons_of_getElem_some hN1, Xrows.yieldLoop,
        hh.1, hh.2, hr.1, hr.2, Xfile.sampleStep]

/-- The typing loop when every lookup succeeds and no column index leaves the
`uint16` range. -/
theorem typedValueLoop_ok (x : Xfile) (sheet : SheetName) (rowpos : Nat) :
    ∀ (cols : List String) (typs : List Xtype) (colix : Nat),
      typs.length = cols.length → colix + cols.length ≤ 65535 →
      (∀ j (h : j < typs.length),
        x.CellTypeByIndex sheet rowpos (colix + j + 1) = .ok (typs.get ⟨j, h⟩)) →
      x.typedValueLoop sheet rowpos colix cols = .ok (List.zipWith TypedValue.mk cols typs) := by
  intro cols
  induction cols with
  | nil => intro typs colix _ _ _; simp [Xfile.typedValueLoop]
  | cons col rest ih =>
    intro typs colix hlen hbound hlook
    cases typs with
    | nil => simp at hlen
    | cons t ts =>
      simp only [List.length_cons] at hlen hbound
      have h0 := hlook 0 (by simp)
      simp only [Nat.add_zero, List.get_eq_getElem, List.getElem_cons_zero] at h0
      have hcol : (colix % 2 ^ 16 + 1) % 2 ^ 16 = colix + 1 := by omega
      have hnot : ¬ 65535 < colix := by omega
      have hrest := ih ts (colix + 1) (by omega) (by omega) (by
        intro j hj
        have := hlook (j + 1) (by simp; omega)
        simp only [List.get_eq_getElem, List.getElem_cons_succ] at this
        rw [show colix + 1 + j + 1 = colix + (j + 1) + 1 by omega]
        simpa using this)
      simp only [Xfile.typedValueLoop, hnot, if_false, hcol, h0, hrest, List.zipWith_cons_cons]

/-- A successful typing loop returns one value per column, raw strings kept. -/
theorem typedValueLoop_raw (x : Xfile) (sheet : SheetName) (rowpos : Nat) :
    ∀ (cols : List String) (colix : Nat) (ret : List TypedValue),
      x.typedValueLoop sheet rowpos colix cols = .ok ret →
      ret.map (fun v => v.Raw) = cols := by
  intro cols
  induction cols with
  | nil =>
    intro colix ret h
    simp only [Xfile.typedValueLoop] at h
    cases h; rfl
  | cons col rest ih =>
    intro colix ret h
    simp only [Xfile.typedValueLoop] at h
    split at h
    · cases h
    · split at h
      · cases h
      · rename_i xtyp hx
        split at h
        · cases h
        · rename_i ret0 h0
          cases h
          simp [ih _ _ h0]

/-- C7. On an error-free sheet of R rows with R - N < 2, `Xfile.ToSampleRow`
fails with `ErrNoSampleRow`; when moreover N < R, typed-mode `Xfile.ToObjects`
yields exactly one pair: no record and that error. -/
theorem C7_too_few_rows_for_sample (x : Xfile) (sheet : SheetName) (rows : List SrcRow)
    (N : Nat) (hrows : x.File.Rows sheet = .ok rows) (hfree : errorFree rows)
    (hfew : (rows.length : Int) - (N : Int) < 2) :
    (x.ToSampleRow sheet (N : Int)).out = .error ErrNoSampleRow ∧
    (N < rows.length →
      (x.ToObjects sheet (N : Int) collect []).out = [(none, some ErrNoSampleRow)]) := by
  have hnone : rows[N + 1]? = none := by
    rw [List.getElem?_eq_none_iff]; omega
  have hsample : (x.ToSampleRow sheet (N : Int)).out = .error ErrNoSampleRow := by
    rw [ToSampleRow_clean x sheet rows N hrows hfree, hnone]
  refine ⟨hsample, ?_⟩
  intro hlt
  have hhdr := ToHeader_clean x sheet rows N hrows hfree
  rw [List.getElem?_eq_getElem hlt] at hhdr
  unfold Xfile.ToObjects
  simp only [hhdr, hrows, hsample]
  rfl

/-- A sheet that holds nothing but a header row. -/
theorem C7_too_few_rows_for_sample_witness :
    demoFile.File.Rows "Sheet1" = .ok demoRows ∧ errorFree demoRows ∧
    (demoRows.length : Int) - ((2 : Nat) : Int) < 2 ∧
    (demoFile.ToSampleRow "Sheet1" ((2 : Nat) : Int)).out = .error ErrNoSampleRow ∧
    (2 < demoRows.length →
      (demoFile.ToObjects "Sheet1" ((2 : Nat) : Int) collect []).out
        = [(none, some ErrNoSampleRow)]) :=
  ⟨by decide, by decide, by decide,
    C7_too_few_rows_for_sample demoFile "Sheet1" demoRows 2 (by decide) (by decide) (by decide)⟩

/-- C8. On an error-free sheet with at least N + 2 rows whose row N + 2 has at
most 65535 columns, `Xfile.ToSampleRow` passes over row N + 1 and, when the
lookup at the address of (physical row N + 2, column j) succeeds for every
column j, returns one `TypedValue` per column of row N + 2, in order, with that
column's string as `Raw` and the looked-up cell type as `Typ`. The sheet is
one the format allows, of at most `TotalRows` rows, so that a physical position
fits the `uint32` row index it is converted to. -/
theorem C8_ToSampleRow_types_physical_row (x : Xfile) (sheet : SheetName)
    (rows : List SrcRow) (N : Nat) (sample : SrcRow) (typs : List Xtype)
    (hrows : x.File.Rows sheet = .ok rows) (hfree : errorFree rows)
    (hsample : rows[N + 1]? = some sample)
    (hcols : sample.cols.length ≤ 65535)
    (hfit : rows.length ≤ TotalRows)
    (hlen : typs.length = sample.cols.length)
    (hlook : ∀ j (h : j < typs.length), ∃ addr,
      CoordinatesToCellName ((j : Int) + 1) ((N : Int) + 2) = .ok addr ∧
      x.File.GetCellType sheet addr = .ok (typs.get ⟨j, h⟩)) :
    (x.ToSampleRow sheet (N : Int)).out = .ok (List.zipWith TypedValue.mk sample.cols typs) := by
  rw [ToSampleRow_clean x sheet rows N hrows hfree, hsample]
  have hrow : (((N : Int) + 1 + 1) % 2 ^ 32).toNat = N + 2 := by
    have h1 : ((N : Int) + 1 + 1) = ((N + 2 : Nat) : Int) := by push_cast; ring
    rw [h1]
    have h2 : ((N + 2 : Nat) : Int) % 2 ^ 32 = ((N + 2 : Nat) : Int) := by
      have hN : N + 1 < rows.length := (List.getElem?_eq_some_iff.mp hsample).1
      have hlt : N + 2 < 2 ^ 32 := by unfold TotalRows at hfit; omega
      apply Int.emod_eq_of_lt (by positivity)
      exact_mod_cast hlt
    rw [h2]
    omega
  simp only [hrow]
  apply typedValueLoop_ok x sheet (N + 2) sample.cols typs 0 hlen (by omega)
  intro j hj
  obtain ⟨addr, haddr, htype⟩ := hlook j hj
  unfold Xfile.CellTypeByIndex Xfile.CellType
  have hcast : (((0 + j + 1 : Nat) : Int)) = (j : Int) + 1 := by push_cast; ring
  have hcast2 : (((N + 2 : Nat) : Int)) = (N : Int) + 2 := by push_cast; ring
  rw [hcast, hcast2, haddr]
  exact htype

theorem C8_ToSampleRow_types_physical_row_witness :
    demoFile.File.Rows "Sheet1" = .ok demoRows ∧ errorFree demoRows ∧
    (demoFile.ToSampleRow "Sheet1" ((0 : Nat) : Int)).out
      = .ok (List.zipWith TypedValue.mk ["1", "Alice", "9.5"]
          [XtypeNumber, XtypeSharedString, XtypeNumber]) :=
  ⟨by decide, by decide,
    C8_ToSampleRow_types_physical_row demoFile "Sheet1" demoRows 0
      { cols := ["1", "Alice", "9.5"] } [XtypeNumber, XtypeSharedString, XtypeNumber]
      (by decide) (by decide) (by decide) (by decide) (by decide) (by decide)
      (by
        intro j hj
        have hj3 : j < 3 := hj
        interval_cases j
        · exact ⟨"A2", by decide, show _ = Except.ok XtypeNumber by decide⟩
        · exact ⟨"B2", by decide, show _ = Except.ok XtypeSharedString by decide⟩
        · exact ⟨"C2", by decide, show _ = Except.ok XtypeNumber by decide⟩)⟩

/-! ## Maps and the filling loops -/

theorem GoMap.set_of_not_mem {V : Type} :
    ∀ (m : GoMap V) (k : String) (v : V), k ∉ m.map Prod.fst → GoMap.set m k v = m ++ [(k, v)] := by
  intro m
  induction m with
  | nil => intro k v _; rfl
  | cons kv m ih =>
    intro k v hk
    obtain ⟨k0, v0⟩ := kv
    simp only [List.map_cons, List.mem_cons, not_or] at hk
    have hne : ¬ k0 = k := fun h => hk.1 h.symm
    simp [GoMap.set, hne, ih k v hk.2]

/-- Assigning pairwise distinct fresh keys appends them in order. -/
theorem GoMap.setAll_of_nodup {V : Type} :
    ∀ (kvs : List (String × V)) (m : GoMap V), (kvs.map Prod.fst).Nodup →
      (∀ k ∈ kvs.map Prod.fst, k ∉ m.map Prod.fst) → GoMap.setAll m kvs = m ++ kvs := by
  intro kvs
  induction kvs with
  | nil => intro m _ _; simp [GoMap.setAll]
  | cons kv kvs ih =>
    intro m hnd hfresh
    simp only [List.map_cons, List.nodup_cons] at hnd
    have hk : kv.1 ∉ m.map Prod.fst := hfresh kv.1 (by simp)
    have hstep : GoMap.setAll m (kv :: kvs) = GoMap.setAll (GoMap.set m kv.1 kv.2) kvs := rfl
    rw [hstep, GoMap.set_of_not_mem m kv.1 kv.2 hk]
    rw [ih (m ++ [(kv.1, kv.2)]) hnd.2 (by
      intro k hkin
      simp only [List.map_append, List.map_cons, List.map_nil, List.mem_append,
        List.mem_singleton, not_or]
      refine ⟨hfresh k (by simp [hkin]), ?_⟩
      rintro rfl
      exact hnd.1 hkin)]
    simp

theorem zip_keys_nodup {V : Type} :
    ∀ (hs : List String) (vs : List V), hs.Nodup → ((List.zip hs vs).map Prod.fst).Nodup := by
  intro hs
  induction hs with
  | nil => intro vs _; simp
  | cons h hs ih =>
    intro vs hnd
    cases vs with
    | nil => simp
    | cons v vs =>
      rw [List.nodup_cons] at hnd
      simp only [List.zip_cons_cons, List.map_cons, List.nodup_cons]
      refine ⟨?_, ih vs hnd.2⟩
      intro hmem
      obtain ⟨kv, hkv, hfst⟩ := List.mem_map.mp hmem
      obtain ⟨k, v0⟩ := kv
      have := (List.of_mem_zip hkv).1
      simp only at hfst
      subst hfst
      exact hnd.1 this

/-- A map filled from pairwise distinct headers lists them with their values. -/
theorem GoMap.setAll_zip_nodup {V : Type} (hs : List String) (vs : List V) (hnd : hs.Nodup) :
    GoMap.setAll [] (List.zip hs vs) = List.zip hs vs := by
  rw [GoMap.setAll_of_nodup _ _ (zip_keys_nodup hs vs hnd) (by simp)]
  simp

theorem fillRaw_eq_setAll :
    ∀ (hs cs : List String) (buf : GoMap String),
      fillRaw hs cs buf = GoMap.setAll buf (List.zip hs cs) := by
  intro hs
  induction hs with
  | nil => intro cs buf; simp [fillRaw, GoMap.setAll]
  | cons h hs ih =>
    intro cs buf
    cases cs with
    | nil => simp [fillRaw, GoMap.setAll]
    | cons c cs =>
      simp only [fillRaw, List.zip_cons_cons]
      rw [ih]
      rfl

theorem fillTyped_ok :
    ∀ (hs cs : List String) (ts : List Xtype) (vals : List GoAny) (buf : GoMap GoAny),
      convertsTo cs ts vals →
      fillTyped hs cs ts buf = .ok (GoMap.setAll buf (List.zip hs vals)) := by
  intro hs
  induction hs with
  | nil => intro cs ts vals buf _; simp [fillTyped, GoMap.setAll]
  | cons h hs ih =>
    intro cs ts vals buf hconv
    cases cs with
    | nil =>
      simp only [convertsTo, List.zip_nil_left, List.forall₂_nil_right_iff] at hconv
      subst hconv
      simp [fillTyped, GoMap.setAll]
    | cons c cs =>
      cases ts with
      | nil =>
        simp only [convertsTo, List.zip_nil_right, List.forall₂_nil_right_iff] at hconv
        subst hconv
        simp [fillTyped, GoMap.setAll]
      | cons t ts =>
        simp only [convertsTo, List.zip_cons_cons] at hconv
        cases vals with
        | nil => cases hconv
        | cons v vals =>
          rw [List.forall₂_cons] at hconv
          simp only [fillTyped, hconv.1, List.zip_cons_cons]
          rw [ih cs ts vals _ hconv.2]
          rfl

/-! ## The assemblers on error-free leading rows -/

/-- Skipping an error-free front part of exactly `skipRows` rows. -/
theorem skipLoop_front (skipRows : Int) :
    ∀ (skipped rest : List SrcRow) (cur : Int), errorFree skipped →
      cur + skipped.length = skipRows + 1 →
      Xrows.skipLoop skipRows cur (skipped ++ rest) = Skipped.done (skipRows + 1) rest := by
  intro skipped
  induction skipped with
  | nil =>
    intro rest cur _ h
    have hc : ¬ cur ≤ skipRows := by simp at h; omega
    have hcur : cur = skipRows + 1 := by simp at h; omega
    cases rest <;> simp [Xrows.skipLoop, hc, hcur]
  | cons r rs ih =>
    intro rest cur hfree h
    obtain ⟨hr, hrs⟩ := errorFree_cons.mp hfree
    have hc : cur ≤ skipRows := by simp at h; omega
    have hnext : cur + 1 + (rs.length : Int) = skipRows + 1 := by simp at h; omega
    have hgo := ih rest (cur + 1) hrs hnext
    simp only [List.cons_append, Xrows.skipLoop, hc, if_true, hr.1]
    exact hgo

/-- One run of `ToIter` that skips an error-free front part of exactly N rows. -/
theorem ToIter_front {σ : Type} (skipped rest : List SrcRow) (closed : Nat)
    (yield : Yield σ Row) (s : σ) (hfree : errorFree skipped) :
    Xrows.ToIter { pending := skipped ++ rest, closed := closed } (skipped.length : Int) yield s =
      ((Xrows.yieldLoop yield ((skipped.length : Int) + 1) rest s).1,
       { pending := (Xrows.yieldLoop yield ((skipped.length : Int) + 1) rest s).2,
         closed := closed + 1 }) := by
  unfold Xrows.ToIter
  simp only [skipLoop_front (skipped.length : Int) skipped rest 1 hfree (by omega)]

/-- Raw mode: every row of a clean front part with the header's column count gives
one record, and the loop goes on with the rows behind that part. -/
theorem raw_yieldLoop_front (headers : List String) :
    ∀ (good tail : List SrcRow) (cur : Int) (buf : GoMap String)
      (acc : List (Option (GoMap String) × Option GoError)),
      (∀ r ∈ good, r.clean ∧ r.cols.length = headers.length) →
      ∃ buf1 cur1,
        Xrows.yieldLoop (Xrows.rawStep headers collect) cur (good ++ tail)
            { buf := buf, firstRowSkipped := true, out := acc }
          = Xrows.yieldLoop (Xrows.rawStep headers collect) cur1 tail
              { buf := buf1, firstRowSkipped := true,
                out := acc ++ good.map (fun r => (some (fillRaw headers r.cols []), none)) } := by
  intro good
  induction good with
  | nil => intro tail cur buf acc _; exact ⟨buf, cur, by simp⟩
  | cons r good ih =>
    intro tail cur buf acc hgood
    obtain ⟨hr, hlen⟩ := hgood r (by simp)
    obtain ⟨buf1, cur1, h1⟩ := ih tail (cur + 1) (fillRaw headers r.cols [])
      (acc ++ [(some (fillRaw headers r.cols []), none)])
      (fun r0 hr0 => hgood r0 (by simp [hr0]))
    refine ⟨buf1, cur1, ?_⟩
    have hstep : Xrows.rawStep headers collect
        { buf := buf, firstRowSkipped := true, out := acc } { Index := cur, Columns := r.cols } none
        = ({ buf := fillRaw headers r.cols [], firstRowSkipped := true,
             out := acc ++ [(some (fillRaw headers r.cols []), none)] }, true) := by
      simp [Xrows.rawStep, hlen, collect]
    have hcons : (r :: good) ++ tail = r :: (good ++ tail) := rfl
    rw [hcons]
    simp only [Xrows.yieldLoop, hr.1, hr.2, hstep, if_true]
    rw [h1]
    simp

/-- Raw mode behind the skipped rows: the header row is passed over, the
accepted rows give their records, and the loop goes on behind them. -/
theorem raw_run_front (headers : List String) (skipped good tail : List SrcRow)
    (hdr : SrcRow) (closed : Nat)
    (hskip : errorFree skipped) (hhdr : hdr.clean)
    (hgood : ∀ r ∈ good, r.clean ∧ r.cols.length = headers.length) :
    ∃ buf1 cur1,
      (Xrows.ToRawObjects { pending := skipped ++ hdr :: (good ++ tail), closed := closed }
          headers (skipped.length : Int) collect []).1
        = (Xrows.yieldLoop (Xrows.rawStep headers collect) cur1 tail
            { buf := buf1, firstRowSkipped := true,
              out := good.map (fun r => (some (fillRaw headers r.cols []), none)) }).1.out := by
  obtain ⟨buf1, cur1, h1⟩ := raw_yieldLoop_front headers good tail
    ((skipped.length : Int) + 1 + 1) [] [] hgood
  refine ⟨buf1, cur1, ?_⟩
  unfold Xrows.ToRawObjects
  rw [ToIter_front skipped _ closed _ _ hskip]
  have hstep : ∀ row : Row, Xrows.rawStep headers collect
      ({ out := [] } : Assembling String (List (Option (GoMap String) × Option GoError))) row none
      = ({ buf := [], firstRowSkipped := true, out := [] }, true) := by
    intro row; simp [Xrows.rawStep]
  simp only [Xrows.yieldLoop, hhdr.1, hhdr.2, hstep, if_true]
  rw [h1]
  simp

/-- A sheet with more than N rows splits into the N skipped rows, the header
row and the data rows. -/
theorem rows_split {rows : List SrcRow} {N : Nat} {hdr : SrcRow} (h : rows[N]? = some hdr) :
    rows = rows.take N ++ hdr :: (rows.drop (N + 1) ++ []) ∧ (rows.take N).length = N := by
  have hlt : N < rows.length := (List.getElem?_eq_some_iff.mp h).1
  refine ⟨?_, by simp; omega⟩
  rw [List.append_nil, ← drop_eq_cons_of_getElem_some h, List.take_append_drop]

theorem errorFree_take {rows : List SrcRow} (h : errorFree rows) (n : Nat) :
    errorFree (rows.take n) :=
  fun r hr => h r (List.mem_of_mem_take hr)

/-- C1. On an error-free sheet of R > N rows whose row N + 1 has pairwise
distinct column strings and whose later rows have as many columns as row N + 1,
raw-mode `Xfile.ToRawObjects` yields exactly R - N - 1 pairs, in row order, each
with a nil error and the record that maps header i (column i of row N + 1) to
the unchanged string in column i of the data row; the first record comes from
row N + 2, so the header row is not emitted. -/
theorem C1_raw_objects_one_record_per_data_row (x : Xfile) (sheet : SheetName)
    (rows : List SrcRow) (N : Nat) (hdr : SrcRow)
    (hrows : x.File.Rows sheet = .ok rows) (hfree : errorFree rows)
    (hhdr : rows[N]? = some hdr) (hnodup : hdr.cols.Nodup)
    (hcount : ∀ r ∈ rows.drop (N + 1), r.cols.length = hdr.cols.length) :
    (x.ToRawObjects sheet (N : Int) collect []).out
        = (rows.drop (N + 1)).map (fun r => (some (List.zip hdr.cols r.cols), none)) ∧
    ((x.ToRawObjects sheet (N : Int) collect []).out).length = rows.length - N - 1 := by
  have hheader : (x.ToHeader sheet (N : Int)).out = .ok hdr.cols := by
    rw [ToHeader_clean x sheet rows N hrows hfree, hhdr]
  obtain ⟨hsplit, hlen⟩ := rows_split hhdr
  have hgood : ∀ r ∈ rows.drop (N + 1), r.clean ∧ r.cols.length = hdr.cols.length :=
    fun r hr => ⟨hfree r (List.mem_of_mem_drop hr), hcount r hr⟩
  obtain ⟨buf1, cur1, hrun⟩ := raw_run_front hdr.cols (rows.take N) (rows.drop (N + 1)) [] hdr 0
    (errorFree_take hfree N) (hfree hdr (mem_of_getElem_some hhdr)) hgood
  rw [← hsplit, hlen] at hrun
  have hout : (x.ToRawObjects sheet (N : Int) collect []).out
      = (rows.drop (N + 1)).map (fun r => (some (List.zip hdr.cols r.cols), none)) := by
    unfold Xfile.ToRawObjects
    simp only [hheader, hrows]
    rw [hrun]
    simp only [Xrows.yieldLoop]
    apply List.map_congr_left
    intro r _
    rw [fillRaw_eq_setAll, GoMap.setAll_zip_nodup _ _ hnodup]
  refine ⟨hout, ?_⟩
  rw [hout]
  simp
  omega

theorem C1_raw_objects_one_record_per_data_row_witness :
    demoFile.File.Rows "Sheet1" = .ok demoRows ∧ errorFree demoRows ∧
    (demoFile.ToRawObjects "Sheet1" ((0 : Nat) : Int) collect []).out
        = (demoRows.drop (0 + 1)).map
            (fun r => (some (List.zip ["id", "name", "score"] r.cols), none)) ∧
    ((demoFile.ToRawObjects "Sheet1" ((0 : Nat) : Int) collect []).out).length
        = demoRows.length - 0 - 1 :=
  ⟨by decide, by decide,
    C1_raw_objects_one_record_per_data_row demoFile "Sheet1" demoRows 0
      { cols := ["id", "name", "score"] } (by decide) (by decide) (by decide) (by decide)
      (by decide)⟩

/-- Typed mode: every row of a clean front part with the header's column count
whose cells all convert gives one record, and the loop goes on behind it. -/
theorem typed_yieldLoop_front (headers : List String) (typs : List Xtype) :
    ∀ (good tail : List SrcRow) (cur : Int) (buf : GoMap GoAny)
      (acc : List (Option (GoMap GoAny) × Option GoError)),
      (∀ r ∈ good, r.clean ∧ r.cols.length = headers.length ∧
        ∃ rec, fillTyped headers r.cols typs [] = .ok rec) →
      ∃ buf1 cur1,
        Xrows.yieldLoop (Xrows.typedStep headers typs collect) cur (good ++ tail)
            { buf := buf, firstRowSkipped := true, out := acc }
          = Xrows.yieldLoop (Xrows.typedStep headers typs collect) cur1 tail
              { buf := buf1, firstRowSkipped := true,
                out := acc ++ good.map
                  (fun r => ((fillTyped headers r.cols typs []).toOption, none)) } := by
  intro good
  induction good with
  | nil => intro tail cur buf acc _; exact ⟨buf, cur, by simp⟩
  | cons r good ih =>
    intro tail cur buf acc hgood
    obtain ⟨hr, hlen, rec, hrec⟩ := hgood r (by simp)
    obtain ⟨buf1, cur1, h1⟩ := ih tail (cur + 1) rec (acc ++ [(some rec, none)])
      (fun r0 hr0 => hgood r0 (by simp [hr0]))
    refine ⟨buf1, cur1, ?_⟩
    have hstep : Xrows.typedStep headers typs collect
        { buf := buf, firstRowSkipped := true, out := acc } { Index := cur, Columns := r.cols } none
        = ({ buf := rec, firstRowSkipped := true, out := acc ++ [(some rec, none)] }, true) := by
      simp [Xrows.typedStep, hlen, hrec, collect]
    have hcons : (r :: good) ++ tail = r :: (good ++ tail) := rfl
    rw [hcons]
    simp only [Xrows.yieldLoop, hr.1, hr.2, hstep, if_true]
    rw [h1]
    simp [hrec, Except.toOption]

/-- Typed mode behind the skipped rows: the header row is passed over, the
accepted rows give their records, and the loop goes on behind them. -/
theorem typed_run_front (headers : List String) (typs : List Xtype)
    (skipped good tail : List SrcRow) (hdr : SrcRow) (closed : Nat)
    (htyps : headers.length = typs.length)
    (hskip : errorFree skipped) (hhdr : hdr.clean)
    (hgood : ∀ r ∈ good, r.clean ∧ r.cols.length = headers.length ∧
      ∃ rec, fillTyped headers r.cols typs [] = .ok rec) :
    ∃ buf1 cur1,
      (Xrows.ToObjects { pending := skipped ++ hdr :: (good ++ tail), closed := closed }
          headers typs (skipped.length : Int) collect []).1
        = (Xrows.yieldLoop (Xrows.typedStep headers typs collect) cur1 tail
            { buf := buf1, firstRowSkipped := true,
              out := good.map
                (fun r => ((fillTyped headers r.cols typs []).toOption, none)) }).1.out := by
  obtain ⟨buf1, cur1, h1⟩ := typed_yieldLoop_front headers typs good tail
    ((skipped.length : Int) + 1 + 1) [] [] hgood
  refine ⟨buf1, cur1, ?_⟩
  unfold Xrows.ToObjects
  simp only [htyps, ne_eq, not_true_eq_false, if_false]
  rw [ToIter_front skipped _ closed _ _ hskip]
  have hstep : ∀ row : Row, Xrows.typedStep headers typs collect
      ({ out := [] } : Assembling GoAny (List (Option (GoMap GoAny) × Option GoError))) row none
      = ({ buf := [], firstRowSkipped := true, out := [] }, true) := by
    intro row; simp [Xrows.typedStep]
  simp only [Xrows.yieldLoop, hhdr.1, hhdr.2, hstep, if_true]
  rw [h1]
  simp

/-- Cells that all convert have their list of converted values. -/
theorem convertsTo_of_all_ok :
    ∀ (cols : List String) (typs : List Xtype),
      (∀ ct ∈ List.zip cols typs, (TypedValue.mk ct.1 ct.2).Convert.isOk = true) →
      ∃ vals, convertsTo cols typs vals := by
  intro cols
  induction cols with
  | nil => intro typs _; exact ⟨[], by simp [convertsTo]⟩
  | cons c cols ih =>
    intro typs hall
    cases typs with
    | nil => exact ⟨[], by simp [convertsTo]⟩
    | cons t typs =>
      obtain ⟨vals, hvals⟩ := ih typs (fun ct hct => hall ct (by simp [hct]))
      have h0 := hall (c, t) (by simp)
      cases hc : (TypedValue.mk c t).Convert with
      | error e => simp [hc, Except.isOk, Except.toBool] at h0
      | ok v =>
        refine ⟨v :: vals, ?_⟩
        simp only [convertsTo, List.zip_cons_cons, List.forall₂_cons]
        exact ⟨hc, hvals⟩

/-- The typing loop stops at the first cell whose conversion fails. -/
theorem fillTyped_error (c : String) (t : Xtype) (e : GoError) (post : List String)
    (hfail : (TypedValue.mk c t).Convert = .error e) :
    ∀ (pre hs : List String) (ts : List Xtype) (vals : List GoAny) (buf : GoMap GoAny),
      pre.length < hs.length → ts[pre.length]? = some t → convertsTo pre ts vals →
      fillTyped hs (pre ++ c :: post) ts buf = .error e := by
  intro pre
  induction pre with
  | nil =>
    intro hs ts vals buf hlen ht _
    cases hs with
    | nil => simp at hlen
    | cons h hs =>
      cases ts with
      | nil => simp at ht
      | cons t0 ts =>
        simp only [List.length_nil, List.getElem?_cons_zero, Option.some.injEq] at ht
        subst ht
        simp [fillTyped, hfail]
  | cons p pre ih =>
    intro hs ts vals buf hlen ht hconv
    cases hs with
    | nil => simp at hlen
    | cons h hs =>
      cases ts with
      | nil => simp at ht
      | cons t0 ts =>
        simp only [List.length_cons, List.getElem?_cons_succ] at ht
        simp only [convertsTo, List.zip_cons_cons] at hconv
        cases vals with
        | nil => cases hconv
        | cons v vals =>
          rw [List.forall₂_cons] at hconv
          simp only [List.cons_append, fillTyped, hconv.1]
          exact ih hs ts vals _ (by simpa using hlen) ht hconv.2

/-! ## The assemblers: main statements -/

/-- C2. On an error-free sheet with pairwise distinct headers (row N + 1), equal
column counts in every later row, a sample resolution that succeeds with the
typed values `typed` (this needs R >= N + 2) and cells that all convert,
typed-mode `Xfile.ToObjects` yields exactly R - N - 1 pairs in row order, the
first one from the sample row (row N + 2) itself, each with a nil error and the
record that maps header i to `Convert` of the row's column i under the cell
type of the sample row's column i. -/
theorem C2_typed_objects_one_record_per_data_row (x : Xfile) (sheet : SheetName)
    (rows : List SrcRow) (N : Nat) (hdr : SrcRow) (typed : List TypedValue)
    (hrows : x.File.Rows sheet = .ok rows) (hfree : errorFree rows)
    (hhdr : rows[N]? = some hdr) (hnodup : hdr.cols.Nodup)
    (hcount : ∀ r ∈ rows.drop (N + 1), r.cols.length = hdr.cols.length)
    (hsample : (x.ToSampleRow sheet (N : Int)).out = .ok typed)
    (hconv : ∀ r ∈ rows.drop (N + 1), ∀ ct ∈ List.zip r.cols (typed.map (fun v => v.Typ)),
      (TypedValue.mk ct.1 ct.2).Convert.isOk = true) :
    List.Forall₂
      (fun p r => p.2 = none ∧
        ∃ vals, convertsTo r.cols (typed.map (fun v => v.Typ)) vals ∧
          p.1 = some (List.zip hdr.cols vals))
      (x.ToObjects sheet (N : Int) collect []).out (rows.drop (N + 1)) ∧
    ((x.ToObjects sheet (N : Int) collect []).out).length = rows.length - N - 1 ∧
    N + 2 ≤ rows.length := by
  have hheader : (x.ToHeader sheet (N : Int)).out = .ok hdr.cols := by
    rw [ToHeader_clean x sheet rows N hrows hfree, hhdr]
  -- the sample row exists and fixes the length of the type vector
  have hs := ToSampleRow_clean x sheet rows N hrows hfree
  rw [hsample] at hs
  cases hN1 : rows[N + 1]? with
  | none => rw [hN1] at hs; cases hs
  | some sample =>
    rw [hN1] at hs
    have hraw := typedValueLoop_raw x sheet _ sample.cols 0 typed hs.symm
    have hmem : sample ∈ rows.drop (N + 1) := by
      rw [drop_eq_cons_of_getElem_some hN1]; simp
    have htl : hdr.cols.length = (typed.map (fun v => v.Typ)).length := by
      have h1 : (typed.map (fun v => v.Raw)).length = sample.cols.length := by rw [hraw]
      simp only [List.length_map] at h1 ⊢
      rw [h1, hcount sample hmem]
    obtain ⟨hsplit, hlen⟩ := rows_split hhdr
    have hrec : ∀ r ∈ rows.drop (N + 1), ∃ vals,
        convertsTo r.cols (typed.map (fun v => v.Typ)) vals ∧
        fillTyped hdr.cols r.cols (typed.map (fun v => v.Typ)) [] = .ok (List.zip hdr.cols vals) := by
      intro r hr
      obtain ⟨vals, hvals⟩ := convertsTo_of_all_ok r.cols _ (hconv r hr)
      refine ⟨vals, hvals, ?_⟩
      rw [fillTyped_ok hdr.cols r.cols _ vals [] hvals, GoMap.setAll_zip_nodup _ _ hnodup]
    have hgood : ∀ r ∈ rows.drop (N + 1), r.clean ∧ r.cols.length = hdr.cols.length ∧
        ∃ rec, fillTyped hdr.cols r.cols (typed.map (fun v => v.Typ)) [] = .ok rec := by
      intro r hr
      obtain ⟨vals, _, hfill⟩ := hrec r hr
      exact ⟨hfree r (List.mem_of_mem_drop hr), hcount r hr, _, hfill⟩
    obtain ⟨buf1, cur1, hrun⟩ := typed_run_front hdr.cols (typed.map (fun v => v.Typ))
      (rows.take N) (rows.drop (N + 1)) [] hdr 0 htl (errorFree_take hfree N)
      (hfree hdr (mem_of_getElem_some hhdr)) hgood
    rw [← hsplit, hlen] at hrun
    have hout : (x.ToObjects sheet (N : Int) collect []).out
        = (rows.drop (N + 1)).map (fun r =>
            ((fillTyped hdr.cols r.cols (typed.map (fun v => v.Typ)) []).toOption, none)) := by
      unfold Xfile.ToObjects
      simp only [hheader, hrows, hsample]
      rw [hrun]
      simp only [Xrows.yieldLoop]
    refine ⟨?_, ?_, ?_⟩
    · rw [hout, List.forall₂_map_left_iff, List.forall₂_same]
      intro r hr
      obtain ⟨vals, hvals, hfill⟩ := hrec r hr
      exact ⟨rfl, vals, hvals, by rw [hfill]; rfl⟩
    · rw [hout]
      simp
      omega
    · have := (List.getElem?_eq_some_iff.mp hN1).1
      omega

/-- The end-to-end example: the records are id: 1, name: Alice, score: 9.5 and
then id: 2, name: Bob, score: 7, the numbers as float64 values. -/
theorem C2_typed_objects_one_record_per_data_row_witness :
    demoFile.File.Rows "Sheet1" = .ok demoRows ∧ errorFree demoRows ∧
    (demoFile.ToSampleRow "Sheet1" ((0 : Nat) : Int)).out = .ok demoTyped ∧
    (demoFile.ToObjects "Sheet1" ((0 : Nat) : Int) collect []).out
      = [(some [("id", .float64 ⟨0x3FF0000000000000⟩), ("name", .string "Alice"),
                ("score", .float64 ⟨0x4023000000000000⟩)], none),
         (some [("id", .float64 ⟨0x4000000000000000⟩), ("name", .string "Bob"),
                ("score", .float64 ⟨0x401C000000000000⟩)], none)] ∧
    List.Forall₂
      (fun p r => p.2 = none ∧
        ∃ vals, convertsTo r.cols (demoTyped.map (fun v => v.Typ)) vals ∧
          p.1 = some (List.zip ["id", "name", "score"] vals))
      (demoFile.ToObjects "Sheet1" ((0 : Nat) : Int) collect []).out (demoRows.drop (0 + 1)) ∧
    ((demoFile.ToObjects "Sheet1" ((0 : Nat) : Int) collect []).out).length
      = demoRows.length - 0 - 1 ∧
    0 + 2 ≤ demoRows.length :=
  ⟨by decide, by decide, by decide, by decide,
    C2_typed_objects_one_record_per_data_row demoFile "Sheet1" demoRows 0
      { cols := ["id", "name", "score"] } demoTyped (by decide) (by decide) (by decide)
      (by decide) (by decide) (by decide) (by decide)⟩

/-- C9. In raw mode and in typed mode (type vector of the header's length): at
the first row behind the header whose column count differs from the header
count, reached after rows that were all accepted, the sequence yields, after
one record for each earlier data row, exactly one more pair, with no record
and an error that wraps `ErrInvalidColumnCount` and names both counts; nothing
is yielded for the rows behind it. -/
theorem C9_column_count_mismatch_ends_stream (headers : List String) (typs : List Xtype)
    (skipped good rest : List SrcRow) (hdr bad : SrcRow) (closed : Nat)
    (htyps : headers.length = typs.length)
    (hskip : errorFree skipped) (hhdr : hdr.clean)
    (hgood : ∀ r ∈ good, r.clean ∧ r.cols.length = headers.length)
    (hconv : ∀ r ∈ good, ∀ ct ∈ List.zip r.cols typs, (TypedValue.mk ct.1 ct.2).Convert.isOk = true)
    (hbadclean : bad.clean) (hbad : bad.cols.length ≠ headers.length) :
    (Xrows.ToRawObjects { pending := skipped ++ hdr :: (good ++ bad :: rest), closed := closed }
        headers (skipped.length : Int) collect []).1
      = good.map (fun r => (some (GoMap.setAll [] (List.zip headers r.cols)), none))
          ++ [(none, some (columnCountError bad.cols.length headers.length))] ∧
    (∃ recs : List (GoMap GoAny),
      List.Forall₂
        (fun rec r => ∃ vals, convertsTo r.cols typs vals ∧
          rec = GoMap.setAll [] (List.zip headers vals)) recs good ∧
      (Xrows.ToObjects { pending := skipped ++ hdr :: (good ++ bad :: rest), closed := closed }
          headers typs (skipped.length : Int) collect []).1
        = recs.map (fun rec => (some rec, none))
            ++ [(none, some (columnCountError bad.cols.length headers.length))]) ∧
    (columnCountError bad.cols.length headers.length).Is ErrInvalidColumnCount = true ∧
    containsText (columnCountError bad.cols.length headers.length).Error
      ("column count=" ++ toString bad.cols.length) ∧
    containsText (columnCountError bad.cols.length headers.length).Error
      ("header count=" ++ toString headers.length) := by
  refine ⟨?_, ?_, ?_, ?_, ?_⟩
  · obtain ⟨buf1, cur1, hrun⟩ := raw_run_front headers skipped good (bad :: rest) hdr closed
      hskip hhdr hgood
    rw [hrun]
    have hstep : ∀ (b : GoMap String) (acc : List (Option (GoMap String) × Option GoError))
        (cur : Int), Xrows.rawStep headers collect
          { buf := b, firstRowSkipped := true, out := acc } { Index := cur, Columns := bad.cols }
          none
        = ({ buf := [], firstRowSkipped := true,
             out := acc ++ [(none, some (columnCountError bad.cols.length headers.length))] },
           false) := by
      intro b acc cur; simp [Xrows.rawStep, hbad, collect]
    simp only [Xrows.yieldLoop, hbadclean.1, hbadclean.2, hstep]
    simp only [Bool.false_eq_true, if_false]
    congr 1
    apply List.map_congr_left
    intro r _
    rw [fillRaw_eq_setAll]
  · have hrec : ∀ r ∈ good, ∃ vals, convertsTo r.cols typs vals ∧
        fillTyped headers r.cols typs [] = .ok (GoMap.setAll [] (List.zip headers vals)) := by
      intro r hr
      obtain ⟨vals, hvals⟩ := convertsTo_of_all_ok r.cols _ (hconv r hr)
      exact ⟨vals, hvals, fillTyped_ok headers r.cols _ vals [] hvals⟩
    have hgood2 : ∀ r ∈ good, r.clean ∧ r.cols.length = headers.length ∧
        ∃ rec, fillTyped headers r.cols typs [] = .ok rec := by
      intro r hr
      obtain ⟨vals, _, hfill⟩ := hrec r hr
      exact ⟨(hgood r hr).1, (hgood r hr).2, _, hfill⟩
    obtain ⟨buf1, cur1, hrun⟩ := typed_run_front headers typs skipped good (bad :: rest) hdr
      closed htyps hskip hhdr hgood2
    refine ⟨good.map (fun r => match fillTyped headers r.cols typs [] with
      | .ok rec => rec
      | .error _ => []), ?_, ?_⟩
    · rw [List.forall₂_map_left_iff, List.forall₂_same]
      intro r hr
      obtain ⟨vals, hvals, hfill⟩ := hrec r hr
      exact ⟨vals, hvals, by rw [hfill]⟩
    · rw [hrun]
      have hstep : ∀ (b : GoMap GoAny) (acc : List (Option (GoMap GoAny) × Option GoError))
          (cur : Int), Xrows.typedStep headers typs collect
            { buf := b, firstRowSkipped := true, out := acc } { Index := cur, Columns := bad.cols }
            none
          = ({ buf := [], firstRowSkipped := true,
               out := acc ++ [(none, some (columnCountError bad.cols.length headers.length))] },
             false) := by
        intro b acc cur; simp [Xrows.typedStep, hbad, collect]
      simp only [Xrows.yieldLoop, hbadclean.1, hbadclean.2, hstep]
      simp only [Bool.false_eq_true, if_false, List.map_map]
      congr 1
      apply List.map_congr_left
      intro r hr
      obtain ⟨vals, _, hfill⟩ := hrec r hr
      simp [hfill, Except.toOption]
  · simp [columnCountError, GoError.Is, ErrInvalidColumnCount]
  · show _ <:+: _
    simp only [columnCountError, GoError.Error, ErrInvalidColumnCount, String.data_append]
    exact ⟨"invalid column count".data ++ ": ".data,
      ", header count=".data ++ (toString headers.length).data, by simp⟩
  · show _ <:+: _
    simp only [columnCountError, GoError.Error, ErrInvalidColumnCount, String.data_append]
    exact ⟨"invalid column count".data ++ ": column count=".data
        ++ (toString bad.cols.length).data ++ ", ".data, [], by simp⟩

theorem C9_column_count_mismatch_ends_stream_witness :
    (Xrows.ToRawObjects { pending := raggedRows, closed := 0 } ["a", "b"] ((1 : Nat) : Int)
        collect []).1
      = [(some [("a", "1"), ("b", "x")], none), (none, some (columnCountError 1 2))] ∧
    (columnCountError 1 2).Error = "invalid column count: column count=1, header count=2" ∧
    (columnCountError 1 2).Is ErrInvalidColumnCount = true :=
  ⟨(C9_column_count_mismatch_ends_stream ["a", "b"] [XtypeNumber, XtypeUnset]
      [{ cols := ["title"] }] [{ cols := ["1", "x"] }] [{ cols := ["3", "y"] }]
      { cols := ["a", "b"] } { cols := ["2"] } 0 (by decide) (by decide) (by decide) (by decide)
      (by decide) (by decide) (by decide)).1,
    by decide, by decide⟩

/-- C10. In typed mode every cell of column i is converted with the fixed type
`typs[i]` of the type vector, whatever the row holds; at the first cell whose
conversion fails, reached after rows that were all accepted, the sequence
yields, after the records of the earlier rows, exactly one more pair, with no
record and that conversion error; nothing is yielded for the cells and rows
behind it. -/
theorem C10_conversion_failure_ends_stream (headers : List String) (typs : List Xtype)
    (skipped good rest : List SrcRow) (hdr bad : SrcRow) (closed : Nat)
    (pre post : List String) (c : String) (t : Xtype) (e : GoError)
    (htyps : headers.length = typs.length)
    (hskip : errorFree skipped) (hhdr : hdr.clean)
    (hgood : ∀ r ∈ good, r.clean ∧ r.cols.length = headers.length)
    (hconv : ∀ r ∈ good, ∀ ct ∈ List.zip r.cols typs, (TypedValue.mk ct.1 ct.2).Convert.isOk = true)
    (hbadclean : bad.clean) (hbadlen : bad.cols.length = headers.length)
    (hbadcols : bad.cols = pre ++ c :: post)
    (hpre : ∀ ct ∈ List.zip pre typs, (TypedValue.mk ct.1 ct.2).Convert.isOk = true)
    (htyp : typs[pre.length]? = some t)
    (hfail : (TypedValue.mk c t).Convert = .error e) :
    ∃ recs : List (GoMap GoAny),
      List.Forall₂
        (fun rec r => ∃ vals, convertsTo r.cols typs vals ∧
          rec = GoMap.setAll [] (List.zip headers vals)) recs good ∧
      (Xrows.ToObjects { pending := skipped ++ hdr :: (good ++ bad :: rest), closed := closed }
          headers typs (skipped.length : Int) collect []).1
        = recs.map (fun rec => (some rec, none)) ++ [(none, some e)] := by
  have hrec : ∀ r ∈ good, ∃ vals, convertsTo r.cols typs vals ∧
      fillTyped headers r.cols typs [] = .ok (GoMap.setAll [] (List.zip headers vals)) := by
    intro r hr
    obtain ⟨vals, hvals⟩ := convertsTo_of_all_ok r.cols _ (hconv r hr)
    exact ⟨vals, hvals, fillTyped_ok headers r.cols _ vals [] hvals⟩
  have hgood2 : ∀ r ∈ good, r.clean ∧ r.cols.length = headers.length ∧
      ∃ rec, fillTyped headers r.cols typs [] = .ok rec := by
    intro r hr
    obtain ⟨vals, _, hfill⟩ := hrec r hr
    exact ⟨(hgood r hr).1, (hgood r hr).2, _, hfill⟩
  obtain ⟨buf1, cur1, hrun⟩ := typed_run_front headers typs skipped good (bad :: rest) hdr
    closed htyps hskip hhdr hgood2
  obtain ⟨vals0, hvals0⟩ := convertsTo_of_all_ok pre typs hpre
  have hprelen : pre.length < headers.length := by
    rw [← hbadlen, hbadcols]; simp
  have hfill : fillTyped headers bad.cols typs [] = .error e := by
    rw [hbadcols]
    exact fillTyped_error c t e post hfail pre headers typs vals0 [] hprelen htyp hvals0
  refine ⟨good.map (fun r => match fillTyped headers r.cols typs [] with
    | .ok rec => rec
    | .error _ => []), ?_, ?_⟩
  · rw [List.forall₂_map_left_iff, List.forall₂_same]
    intro r hr
    obtain ⟨vals, hvals, hfill⟩ := hrec r hr
    exact ⟨vals, hvals, by rw [hfill]⟩
  · rw [hrun]
    have hstep : ∀ (b : GoMap GoAny) (acc : List (Option (GoMap GoAny) × Option GoError))
        (cur : Int), Xrows.typedStep headers typs collect
          { buf := b, firstRowSkipped := true, out := acc } { Index := cur, Columns := bad.cols }
          none
        = ({ buf := [], firstRowSkipped := true, out := acc ++ [(none, some e)] }, false) := by
      intro b acc cur; simp [Xrows.typedStep, hbadlen, hfill, collect]
    simp only [Xrows.yieldLoop, hbadclean.1, hbadclean.2, hstep]
    simp only [Bool.false_eq_true, if_false, List.map_map]
    congr 1
    apply List.map_congr_left
    intro r hr
    obtain ⟨vals, _, hfill⟩ := hrec r hr
    simp [hfill, Except.toOption]

theorem C10_conversion_failure_ends_stream_witness :
    (Xrows.ToObjects { pending := badCellRows, closed := 0 } ["n", "flag"]
        [XtypeNumber, XtypeBool] ((0 : Nat) : Int) collect []).1
      = [(some [("n", .float64 ⟨0x3FF0000000000000⟩), ("flag", .bool true)], none),
         (none, some (strconv.syntaxError "ParseBool" "maybe"))] ∧
    ∃ recs : List (GoMap GoAny),
      List.Forall₂
        (fun (rec : GoMap GoAny) (r : SrcRow) =>
          ∃ vals, convertsTo r.cols [XtypeNumber, XtypeBool] vals ∧
            rec = GoMap.setAll [] (List.zip ["n", "flag"] vals)) recs
        ([{ cols := ["1", "true"] }] : List SrcRow) ∧
      (Xrows.ToObjects { pending := badCellRows, closed := 0 } ["n", "flag"]
          [XtypeNumber, XtypeBool] ((0 : Nat) : Int) collect []).1
        = recs.map (fun rec => (some rec, none))
            ++ [(none, some (strconv.syntaxError "ParseBool" "maybe"))] :=
  ⟨by decide,
    C10_conversion_failure_ends_stream ["n", "flag"] [XtypeNumber, XtypeBool]
      [] [{ cols := ["1", "true"] }] [{ cols := ["3", "false"] }]
      { cols := ["n", "flag"] } { cols := ["2", "maybe"] } 0 ["2"] [] "maybe" XtypeBool
      (strconv.syntaxError "ParseBool" "maybe")
      (by decide) (by decide) (by decide) (by decide) (by decide) (by decide) (by decide)
      (by decide) (by decide) (by decide) (by decide)⟩

/-! ## The sequencer: errors, row numbers and the cursor -/

/-- The skipping loop stops at the first row whose error check fails. -/
theorem skipLoop_failed (skipRows : Int) (e : GoError) (bad : SrcRow) (rest : List SrcRow)
    (hbad : bad.err = some e) :
    ∀ (pre : List SrcRow) (cur : Int), (∀ r ∈ pre, r.err = none) →
      cur + pre.length ≤ skipRows →
      Xrows.skipLoop skipRows cur (pre ++ bad :: rest) = Skipped.failed e rest := by
  intro pre
  induction pre with
  | nil =>
    intro cur _ h
    have hc : cur ≤ skipRows := by simpa using h
    simp [Xrows.skipLoop, hc, hbad]
  | cons r rs ih =>
    intro cur hclean h
    have hc : cur ≤ skipRows := by simp at h; omega
    have hr : r.err = none := hclean r (by simp)
    have hnext : cur + 1 + (rs.length : Int) ≤ skipRows := by simp at h; omega
    simp only [List.cons_append, Xrows.skipLoop, hc, if_true, hr]
    exact ih (cur + 1) (fun r0 h0 => hclean r0 (by simp [h0])) hnext

theorem numbered_index (rows : List SrcRow) :
    ∀ cur : Int, (numbered cur rows).map (fun row => row.Index)
      = (List.range rows.length).map (fun k : Nat => cur + (k : Int)) := by
  induction rows with
  | nil => intro cur; rfl
  | cons r rs ih =>
    intro cur
    simp only [numbered, List.map_cons, List.length_cons, List.range_succ_eq_map, ih,
      List.map_map, Nat.cast_zero, add_zero, List.cons.injEq, true_and]
    apply List.map_congr_left
    intro k _
    simp only [Function.comp, Nat.succ_eq_add_one]
    push_cast
    ring

/-- C11. With a type vector whose length differs from the header count the
sequence of `Xrows.ToObjects` yields exactly one pair, no record and
`ErrUnexpectedTypCount`, and leaves the row cursor as it was; so typed-mode
`Xfile.ToObjects` on an error-free sheet whose sample row resolves but has
another column count than the header row yields that single pair. -/
theorem C11_type_count_mismatch_is_reported_first (r : Xrows) (headers : List String)
    (typs : List Xtype) (skipRows : Int)
    (x : Xfile) (sheet : SheetName) (rows : List SrcRow) (N : Nat) (hdr sample : SrcRow)
    (typed : List TypedValue)
    (hlen : headers.length ≠ typs.length)
    (hrows : x.File.Rows sheet = .ok rows) (hfree : errorFree rows)
    (hhdr : rows[N]? = some hdr) (hsamplerow : rows[N + 1]? = some sample)
    (hdiff : sample.cols.length ≠ hdr.cols.length)
    (hsample : (x.ToSampleRow sheet (N : Int)).out = .ok typed) :
    r.ToObjects headers typs skipRows collect [] = ([(none, some ErrUnexpectedTypCount)], r) ∧
    (x.ToObjects sheet (N : Int) collect []).out = [(none, some ErrUnexpectedTypCount)] := by
  constructor
  · unfold Xrows.ToObjects
    simp only [hlen, ne_eq, not_false_eq_true, if_true]
    rfl
  · have hheader : (x.ToHeader sheet (N : Int)).out = .ok hdr.cols := by
      rw [ToHeader_clean x sheet rows N hrows hfree, hhdr]
    have hs := ToSampleRow_clean x sheet rows N hrows hfree
    rw [hsample, hsamplerow] at hs
    have hraw := typedValueLoop_raw x sheet _ sample.cols 0 typed hs.symm
    have htl : hdr.cols.length ≠ (typed.map (fun v => v.Typ)).length := by
      have h1 : (typed.map (fun v => v.Raw)).length = sample.cols.length := by rw [hraw]
      simp only [List.length_map] at h1 ⊢
      rw [h1]
      exact fun h => hdiff h.symm
    unfold Xfile.ToObjects
    simp only [hheader, hrows, hsample]
    unfold Xrows.ToObjects
    simp only [htl, ne_eq, not_false_eq_true, if_true]
    rfl

theorem C11_type_count_mismatch_is_reported_first_witness :
    unevenFile.File.Rows "Sheet1" = .ok unevenRows ∧ errorFree unevenRows ∧
    Xrows.ToObjects { pending := demoRows, closed := 0 } ["id", "name", "score"]
        [XtypeNumber] ((0 : Nat) : Int) collect []
      = ([(none, some ErrUnexpectedTypCount)], { pending := demoRows, closed := 0 }) ∧
    (unevenFile.ToObjects "Sheet1" ((0 : Nat) : Int) collect []).out
      = [(none, some ErrUnexpectedTypCount)] :=
  ⟨by decide, by decide,
    C11_type_count_mismatch_is_reported_first { pending := demoRows, closed := 0 }
      ["id", "name", "score"] [XtypeNumber] ((0 : Nat) : Int)
      unevenFile "Sheet1" unevenRows 0 { cols := ["a", "b"] } { cols := ["1", "2", "3"] }
      [{ Raw := "1", Typ := XtypeUnset }, { Raw := "2", Typ := XtypeUnset },
       { Raw := "3", Typ := XtypeUnset }]
      (by decide) (by decide) (by decide) (by decide) (by decide) (by decide) (by decide)⟩

/-- C12 (failing input). On `columnsErrorRows` with nothing skipped and a
consumer that never stops, the sequence of `Xrows.ToIter` hands over the error
of `Columns()` for the second row and then goes on to yield the third row. -/
theorem C12_columns_error_does_not_end_the_run :
    (Xrows.ToIter { pending := columnsErrorRows, closed := 0 } 0 collect []).1
      = [({ Index := 1, Columns := ["a"] }, none),
         ({ Index := 2, Columns := ["x"] }, some (.source "bad cell")),
         ({ Index := 3, Columns := ["y"] }, none)] := by
  decide

/-- C13. When the error check first fails at one of the first N rows to skip
(so N >= 1), the sequence of `Xrows.ToIter(N)` yields exactly one pair, the
empty `Row` (index 0, no columns) with that error, and ends; the rows behind the
failing one are left unread. -/
theorem C13_error_while_skipping_yields_one_pair (pre rest : List SrcRow) (bad : SrcRow)
    (e : GoError) (N closed : Nat)
    (hpos : pre.length < N)
    (hpre : ∀ r ∈ pre, r.err = none) (hbad : bad.err = some e) :
    Xrows.ToIter { pending := pre ++ bad :: rest, closed := closed } (N : Int) collect []
      = ([({ Index := 0, Columns := [] }, some e)], { pending := rest, closed := closed + 1 }) := by
  have hskip := skipLoop_failed (N : Int) e bad rest hbad pre 1 hpre (by omega)
  unfold Xrows.ToIter
  simp only [hskip]
  rfl

theorem C13_error_while_skipping_yields_one_pair_witness :
    Xrows.ToIter { pending := rowErrorRows, closed := 0 } ((2 : Nat) : Int) collect []
      = ([({ Index := 0, Columns := [] }, some (.source "broken row"))],
         { pending := [{ cols := ["c"] }], closed := 0 + 1 }) :=
  C13_error_while_skipping_yields_one_pair [{ cols := ["a"] }] [{ cols := ["c"] }]
    { cols := ["b"], err := some (.source "broken row") } (.source "broken row") 2 0
    (by decide) (by decide) (by decide)

/-- C14 (counterexample). With one row skipped the first row yielded over
`demoRows` carries index 2, not 1. -/
theorem C14_index_is_not_the_post_skip_position :
    ((Xrows.ToIter { pending := demoRows, closed := 0 } 1 collect []).1).map
        (fun p => p.1.Index) = [2, 3] ∧
    ((Xrows.ToIter { pending := demoRows, closed := 0 } 1 collect []).1).map
        (fun p => p.1.Index) ≠ [1, 2] := by
  decide

/-- C14 (amended). Over an error-free source the k-th row yielded by
`Xrows.ToIter(N)` carries `Index = N + k`, its 1-based physical position in the
sheet; this is k exactly when nothing is skipped. -/
theorem C14_index_is_the_physical_position (rows : List SrcRow) (closed N : Nat)
    (hfree : errorFree rows) :
    ((Xrows.ToIter { pending := rows, closed := closed } (N : Int) collect []).1).map
        (fun p => p.1.Index)
      = (List.range (rows.length - N)).map (fun k : Nat => (N : Int) + ((k : Int) + 1)) := by
  rw [ToIter_collect_clean rows closed N hfree, List.map_map]
  have h := numbered_index (rows.drop N) ((N : Int) + 1)
  have hcomp : ((fun p : Row × Option GoError => p.1.Index) ∘ fun row : Row => (row, none))
      = fun row : Row => row.Index := rfl
  rw [hcomp, h, List.length_drop]
  apply List.map_congr_left
  intro k _
  ring

theorem C14_index_is_the_physical_position_witness :
    errorFree demoRows ∧
    ((Xrows.ToIter { pending := demoRows, closed := 0 } ((1 : Nat) : Int) collect []).1).map
        (fun p => p.1.Index)
      = (List.range (demoRows.length - 1)).map
          (fun k : Nat => ((1 : Nat) : Int) + ((k : Int) + 1)) :=
  ⟨by decide, C14_index_is_the_physical_position demoRows 0 1 (by decide)⟩

/-- C19 (failing input). On `demoFile` with two rows skipped only a header row
is left: sample resolution fails, and of the three cursors the job opened
(header pass, assembly pass, sample pass) the assembly cursor is never closed.
On `unevenFile`, where header and type vector differ in length, the assembly
cursor is not closed either. -/
theorem C19_assembly_cursor_is_left_open :
    (demoFile.ToObjects "Sheet1" 2 collect []).out = [(none, some ErrNoSampleRow)] ∧
    (demoFile.ToObjects "Sheet1" 2 collect []).cursors.map (fun c => c.closed) = [1, 0, 1] ∧
    (unevenFile.ToObjects "Sheet1" 0 collect []).out = [(none, some ErrUnexpectedTypCount)] ∧
    (unevenFile.ToObjects "Sheet1" 0 collect []).cursors.map (fun c => c.closed) = [1, 0, 1] := by
  decide

/-! ## Records under repeated header names -/

theorem GoMap.get_set {V : Type} :
    ∀ (m : GoMap V) (k : String) (v : V) (k1 : String),
      GoMap.get (GoMap.set m k v) k1 = if k = k1 then some v else GoMap.get m k1 := by
  intro m
  induction m with
  | nil => intro k v k1; simp [GoMap.set, GoMap.get]
  | cons kv m ih =>
    intro k v k1
    obtain ⟨k0, v0⟩ := kv
    by_cases h0 : k0 = k
    · subst h0
      by_cases h1 : k0 = k1
      · simp [GoMap.set, GoMap.get, h1]
      · simp [GoMap.set, GoMap.get, h1]
    · by_cases h1 : k0 = k1
      · subst h1
        simp [GoMap.set, GoMap.get, h0, Ne.symm h0]
      · simp [GoMap.set, GoMap.get, h0, h1, ih]

theorem GoMap.mem_keys_set {V : Type} :
    ∀ (m : GoMap V) (k : String) (v : V) (k1 : String),
      k1 ∈ (GoMap.set m k v).map Prod.fst ↔ k1 = k ∨ k1 ∈ m.map Prod.fst := by
  intro m
  induction m with
  | nil => intro k v k1; simp [GoMap.set]
  | cons kv m ih =>
    intro k v k1
    obtain ⟨k0, v0⟩ := kv
    by_cases h0 : k0 = k
    · subst h0
      simp [GoMap.set]
    · simp only [GoMap.set, h0, if_false, List.map_cons, List.mem_cons, ih]
      tauto

theorem GoMap.nodup_keys_set {V : Type} :
    ∀ (m : GoMap V) (k : String) (v : V), (m.map Prod.fst).Nodup →
      ((GoMap.set m k v).map Prod.fst).Nodup := by
  intro m
  induction m with
  | nil => intro k v _; simp [GoMap.set]
  | cons kv m ih =>
    intro k v hnd
    obtain ⟨k0, v0⟩ := kv
    simp only [List.map_cons, List.nodup_cons] at hnd
    by_cases h0 : k0 = k
    · subst h0
      simp only [GoMap.set, if_true, List.map_cons, List.nodup_cons]
      exact hnd
    · simp only [GoMap.set, h0, if_false, List.map_cons, List.nodup_cons]
      refine ⟨?_, ih k v hnd.2⟩
      intro hmem
      rcases (GoMap.mem_keys_set m k v k0).mp hmem with h | h
      · exact h0 h
      · exact hnd.1 h

/-- What the raw filling loop leaves in the map. -/
theorem fillRaw_spec :
    ∀ (hs cs : List String) (buf : GoMap String), hs.length = cs.length →
      (buf.map Prod.fst).Nodup →
      ((fillRaw hs cs buf).map Prod.fst).Nodup ∧
      (∀ k, k ∈ (fillRaw hs cs buf).map Prod.fst ↔ k ∈ buf.map Prod.fst ∨ k ∈ hs) ∧
      (∀ k, GoMap.get (fillRaw hs cs buf) k
        = match lastValue hs cs k with
          | some v => some v
          | none => GoMap.get buf k) := by
  intro hs
  induction hs with
  | nil =>
    intro cs buf _ hnd
    cases cs <;> simp [fillRaw, lastValue, hnd]
  | cons h hs ih =>
    intro cs buf hlen hnd
    cases cs with
    | nil => simp at hlen
    | cons c cs =>
      simp only [List.length_cons, Nat.add_right_cancel_iff] at hlen
      obtain ⟨h1, h2, h3⟩ := ih cs (GoMap.set buf h c) hlen (GoMap.nodup_keys_set buf h c hnd)
      refine ⟨h1, ?_, ?_⟩
      · intro k
        simp only [fillRaw, h2, GoMap.mem_keys_set, List.mem_cons]
        tauto
      · intro k
        simp only [fillRaw, h3, lastValue, GoMap.get_set]
        cases lastValue hs cs k with
        | some v => rfl
        | none =>
          by_cases hk : h = k <;> simp [hk]

/-- C20. For every header list, repeated names included, and every accepted
data row (as many columns as headers), the record that `Xrows.ToRawObjects`
yields has pairwise distinct keys that are exactly the header names, maps each
name to the value of the last column position carrying it, and so holds
nothing of an earlier row; it has as many entries as there are distinct header
names, fewer than headers exactly when a name repeats. -/
theorem C20_repeated_header_keeps_last_column (headers : List String)
    (skipped good : List SrcRow) (hdr : SrcRow) (closed : Nat)
    (hskip : errorFree skipped) (hhdr : hdr.clean)
    (hgood : ∀ r ∈ good, r.clean ∧ r.cols.length = headers.length) :
    ∃ recs : List (GoMap String),
      (Xrows.ToRawObjects { pending := skipped ++ hdr :: good, closed := closed }
          headers (skipped.length : Int) collect []).1
        = recs.map (fun rec => (some rec, none)) ∧
      List.Forall₂
        (fun (rec : GoMap String) (r : SrcRow) =>
          (rec.map Prod.fst).Nodup ∧
          (∀ k, k ∈ rec.map Prod.fst ↔ k ∈ headers) ∧
          (∀ k, GoMap.get rec k = lastValue headers r.cols k) ∧
          rec.length = headers.dedup.length ∧
          (rec.length < headers.length ↔ ¬ headers.Nodup))
        recs good := by
  obtain ⟨buf1, cur1, hrun⟩ := raw_run_front headers skipped good [] hdr closed hskip hhdr hgood
  rw [List.append_nil] at hrun
  refine ⟨good.map (fun r => fillRaw headers r.cols []), ?_, ?_⟩
  · rw [hrun]
    simp [Xrows.yieldLoop]
  · rw [List.forall₂_map_left_iff, List.forall₂_same]
    intro r hr
    obtain ⟨h1, h2, h3⟩ := fillRaw_spec headers r.cols [] (hgood r hr).2.symm (by simp)
    have hkeys : ∀ k, k ∈ (fillRaw headers r.cols []).map Prod.fst ↔ k ∈ headers := by
      intro k; rw [h2]; simp
    have hperm : ((fillRaw headers r.cols []).map Prod.fst).Perm headers.dedup := by
      rw [List.perm_ext_iff_of_nodup h1 (List.nodup_dedup headers)]
      intro k
      rw [hkeys, List.mem_dedup]
    have hlen : (fillRaw headers r.cols []).length = headers.dedup.length := by
      rw [← hperm.length_eq, List.length_map]
    refine ⟨h1, hkeys, ?_, hlen, ?_⟩
    · intro k
      rw [h3]
      cases lastValue headers r.cols k <;> simp [GoMap.get]
    · rw [hlen]
      constructor
      · intro hlt hnd
        rw [List.dedup_eq_self.mpr hnd] at hlt
        exact lt_irrefl _ hlt
      · intro hnd
        rcases Nat.lt_or_ge headers.dedup.length headers.length with h | h
        · exact h
        · exact absurd (List.dedup_eq_self.mp
            ((List.dedup_sublist headers).eq_of_length_le h)) hnd

theorem C20_repeated_header_keeps_last_column_witness :
    (Xrows.ToRawObjects { pending := repeatedHeaderRows, closed := 0 } ["a", "b", "a"]
        ((0 : Nat) : Int) collect []).1
      = [(some [("a", "3"), ("b", "2")], none), (some [("a", "6"), ("b", "5")], none)] ∧
    ∃ recs : List (GoMap String),
      (Xrows.ToRawObjects { pending := repeatedHeaderRows, closed := 0 } ["a", "b", "a"]
          ((0 : Nat) : Int) collect []).1
        = recs.map (fun rec => (some rec, none)) ∧
      List.Forall₂
        (fun (rec : GoMap String) (r : SrcRow) =>
          (rec.map Prod.fst).Nodup ∧
          (∀ k, k ∈ rec.map Prod.fst ↔ k ∈ ["a", "b", "a"]) ∧
          (∀ k, GoMap.get rec k = lastValue ["a", "b", "a"] r.cols k) ∧
          rec.length = (["a", "b", "a"] : List String).dedup.length ∧
          (rec.length < (["a", "b", "a"] : List String).length
            ↔ ¬ (["a", "b", "a"] : List String).Nodup))
        recs ([{ cols := ["1", "2", "3"] }, { cols := ["4", "5", "6"] }] : List SrcRow) :=
  ⟨by decide,
    C20_repeated_header_keeps_last_column ["a", "b", "a"] []
      [{ cols := ["1", "2", "3"] }, { cols := ["4", "5", "6"] }] { cols := ["a", "b", "a"] } 0
      (by decide) (by decide) (by decide)⟩

/-! ## The column guard of `ToTypedValue` -/

/-- No cell has column number 0. -/
theorem CellTypeByIndex_col_zero (x : Xfile) (sheet : SheetName) (row : Nat) :
    ∃ e, x.CellTypeByIndex sheet row 0 = .error e := by
  unfold Xfile.CellTypeByIndex CoordinatesToCellName
  simp

/-- The typing loop returns the error of the first lookup that fails, when
that happens at a column index the guard lets through. -/
theorem typedValueLoop_first_failure (x : Xfile) (sheet : SheetName) (rowpos : Nat)
    (e : GoError) :
    ∀ (j : Nat) (values : List String) (colix : Nat),
      j < values.length → colix + j ≤ 65535 →
      (∀ i, i < j → ∃ t, x.CellTypeByIndex sheet rowpos (colix + i + 1) = .ok t) →
      x.CellTypeByIndex sheet rowpos ((colix + j + 1) % 2 ^ 16) = .error e →
      x.typedValueLoop sheet rowpos colix values = .error e := by
  intro j
  induction j with
  | zero =>
    intro values colix hlen hb _ hfail
    cases values with
    | nil => simp at hlen
    | cons col rest =>
      have hnot : ¬ 65535 < colix := by omega
      have hcol : (colix % 2 ^ 16 + 1) % 2 ^ 16 = (colix + 0 + 1) % 2 ^ 16 := by omega
      simp only [Xfile.typedValueLoop, hnot, if_false, hcol, hfail]
  | succ j ih =>
    intro values colix hlen hb hok hfail
    cases values with
    | nil => simp at hlen
    | cons col rest =>
      have hnot : ¬ 65535 < colix := by omega
      obtain ⟨t, ht⟩ := hok 0 (by omega)
      have hcol : (colix % 2 ^ 16 + 1) % 2 ^ 16 = colix + 0 + 1 := by omega
      have hrest := ih rest (colix + 1) (by simpa using hlen) (by omega)
        (fun i hi => by
          obtain ⟨t1, ht1⟩ := hok (i + 1) (by omega)
          exact ⟨t1, by rw [show colix + 1 + i + 1 = colix + (i + 1) + 1 by omega]; exact ht1⟩)
        (by rw [show colix + 1 + j + 1 = colix + (j + 1) + 1 by omega]; exact hfail)
      simp only [Xfile.typedValueLoop, hnot, if_false, hcol, ht, hrest]

/-- Once the list reaches past column index 65535 the typing loop fails. -/
theorem typedValueLoop_long_fails (x : Xfile) (sheet : SheetName) (rowpos : Nat) :
    ∀ (values : List String) (colix : Nat), colix ≤ 65535 → 65535 < colix + values.length →
      ∃ e, x.typedValueLoop sheet rowpos colix values = .error e := by
  intro values
  induction values with
  | nil => intro colix h1 h2; simp at h2; omega
  | cons col rest ih =>
    intro colix h1 h2
    have hnot : ¬ 65535 < colix := by omega
    simp only [Xfile.typedValueLoop, hnot, if_false]
    cases hl : x.CellTypeByIndex sheet rowpos ((colix % 2 ^ 16 + 1) % 2 ^ 16) with
    | error e => exact ⟨e, rfl⟩
    | ok t =>
      by_cases hlast : colix = 65535
      · subst hlast
        obtain ⟨e0, he0⟩ := CellTypeByIndex_col_zero x sheet rowpos
        have hz : (65535 % 2 ^ 16 + 1) % 2 ^ 16 = 0 := by norm_num
        rw [hz, he0] at hl
        cases hl
      · obtain ⟨e, he⟩ := ih (colix + 1) (by omega) (by simp at h2; omega)
        exact ⟨e, by simp only [he]⟩

/-- Every cell of the first 16384 columns of row 2 of `demoFile` has a type. -/
theorem demoFile_lookup_ok (i : Nat) (hi : i < 16384) :
    ∃ t, demoFile.CellTypeByIndex "Sheet1" 2 (0 + i + 1) = .ok t := by
  have h1 : ¬ (((0 + i + 1 : Nat) : Int) < 1 ∨ (((2 : Nat) : Int)) < 1) := by omega
  have h2 : ¬ (((0 + i + 1 : Nat) : Int) < 1 ∨ (MaxColumns : Int) < ((0 + i + 1 : Nat) : Int)) := by
    unfold MaxColumns; omega
  have h3 : ¬ ((TotalRows : Int) < ((2 : Nat) : Int)) := by
    unfold TotalRows; omega
  unfold Xfile.CellTypeByIndex CoordinatesToCellName ColumnNumberToName
  simp only [h1, h2, h3, if_false, Except.map, Xfile.CellType, demoFile, demoWorkbook]
  split_ifs <;> exact ⟨_, rfl⟩

/-- C15 (counterexample). For a list of exactly 65536 sample values on row 2
of `demoFile`, where every existing cell has a type, `Xfile.ToTypedValue` does
not fail with `ErrTooManyColumns`: it looks up the cells column by column and
returns the error of the lookup at column 16385, past the last column of a
sheet. -/
theorem C15_guard_misses_65536_values :
    demoFile.ToTypedValue "Sheet1" 2 (List.replicate 65536 "")
      = .error (.source
          "the column number must be greater than or equal to 1 and less than or equal to 16384") ∧
    demoFile.ToTypedValue "Sheet1" 2 (List.replicate 65536 "") ≠ .error ErrTooManyColumns := by
  have h : demoFile.ToTypedValue "Sheet1" 2 (List.replicate 65536 "")
      = .error (.source
          "the column number must be greater than or equal to 1 and less than or equal to 16384") := by
    have hlen : 16384 < (List.replicate 65536 "").length := by
      rw [List.length_replicate]; norm_num
    have hfail : demoFile.CellTypeByIndex "Sheet1" 2 ((0 + 16384 + 1) % 2 ^ 16)
        = .error (.source
          "the column number must be greater than or equal to 1 and less than or equal to 16384") := by
      decide
    exact typedValueLoop_first_failure demoFile "Sheet1" 2 _ 16384 (List.replicate 65536 "") 0
      hlen (by norm_num) (fun i hi => demoFile_lookup_ok i hi) hfail
  refine ⟨h, ?_⟩
  rw [h]
  intro hne
  cases hne

/-- C15 (amended). For a list of more than 65535 sample values
`Xfile.ToTypedValue` fails and returns no typed values. Its guard sits inside
the loop over the columns, behind the lookups of the columns before: when the
lookup of a column j + 1 <= 65535 is the first to fail, that lookup's error is
what is returned. -/
theorem C15_long_rows_fail_after_earlier_lookups (x : Xfile) (sheet : SheetName) (rowpos : Nat)
    (values : List String) (hlen : 65535 < values.length) :
    (∃ e, x.ToTypedValue sheet rowpos values = .error e) ∧
    (∀ (j : Nat) (e : GoError), j < 65535 →
      (∀ i, i < j → ∃ t, x.CellTypeByIndex sheet rowpos (i + 1) = .ok t) →
      x.CellTypeByIndex sheet rowpos (j + 1) = .error e →
      x.ToTypedValue sheet rowpos values = .error e) := by
  constructor
  · exact typedValueLoop_long_fails x sheet rowpos values 0 (by omega) (by omega)
  · intro j e hj hok hfail
    unfold Xfile.ToTypedValue
    apply typedValueLoop_first_failure x sheet rowpos e j values 0 (by omega) (by omega)
    · intro i hi
      obtain ⟨t, ht⟩ := hok i hi
      exact ⟨t, by rw [Nat.zero_add]; exact ht⟩
    · have hmod : (0 + j + 1) % 2 ^ 16 = j + 1 := by omega
      rw [hmod]; exact hfail

theorem C15_long_rows_fail_after_earlier_lookups_witness :
    65535 < (List.replicate 65536 "").length ∧
    (∃ e, demoFile.ToTypedValue "Sheet1" 2 (List.replicate 65536 "") = .error e) ∧
    (∀ (j : Nat) (e : GoError), j < 65535 →
      (∀ i, i < j → ∃ t, demoFile.CellTypeByIndex "Sheet1" 2 (i + 1) = .ok t) →
      demoFile.CellTypeByIndex "Sheet1" 2 (j + 1) = .error e →
      demoFile.ToTypedValue "Sheet1" 2 (List.replicate 65536 "") = .error e) :=
  ⟨by rw [List.length_replicate]; norm_num,
    C15_long_rows_fail_after_earlier_lookups demoFile "Sheet1" 2 (List.replicate 65536 "")
      (by rw [List.length_replicate]; norm_num)⟩

/-! ## The float parse accepts every base-10 int64 literal -/

theorem log2Fuel_le :
    ∀ (fuel n k : Nat), n < 2 ^ (k + 1) → Float64.log2Fuel fuel n ≤ k := by
  intro fuel
  induction fuel with
  | zero => intro n k _; simp [Float64.log2Fuel]
  | succ fuel ih =>
    intro n k hn
    unfold Float64.log2Fuel
    split
    · rename_i h2
      cases k with
      | zero => simp at hn; omega
      | succ k =>
        have hhalf : n / 2 < 2 ^ (k + 1) := by
          rw [Nat.div_lt_iff_lt_mul (by norm_num)]
          rw [pow_succ] at hn
          exact hn
        have := ih (n / 2) k hhalf
        omega
    · omega

/-- Rounding does not overflow the format when the binary logarithms of
numerator and denominator differ by at most 970. -/
theorem round_no_overflow (neg : Bool) (num den : Nat)
    (h : (Float64.log2 num : Int) - (Float64.log2 den : Int) ≤ 970) :
    (Float64.round neg num den).2 = false := by
  have key : ∀ (q2 : Nat) (sh2 : Int) (a b c : Float64), sh2 + 1075 < 2047 →
      (if q2 < 2 ^ 52 then (a, false) else if 2047 ≤ sh2 + 1075 then (b, true)
        else (c, false)).2 = false := by
    intro q2 sh2 a b c hlt
    split_ifs
    · rfl
    · omega
    · rfl
  have hsh2 : ∀ (c : Prop) [Decidable c] (sh : Int), sh ≤ 918 →
      (if c then sh + 1 else sh) + 1075 < 2047 := by
    intro c _ sh hle
    split_ifs <;> omega
  have he : ∀ (c : Bool) (e0 : Int), e0 ≤ 970 → (if c then e0 else e0 - 1) - 52 ≤ 918 := by
    intro c e0 hle
    split_ifs <;> omega
  unfold Float64.round
  dsimp only
  by_cases h0 : num = 0 ∨ den = 0
  · rw [if_pos h0]
  · rw [if_neg h0]
    apply key
    apply hsh2
    apply max_le
    · apply he
      exact h
    · norm_num

theorem isDigit_toNat {c : Char} (h : strconv.isDigit c = true) :
    48 ≤ c.toNat ∧ c.toNat ≤ 57 := by
  simpa [strconv.isDigit] using h

theorem parseUintLoop_ok :
    ∀ (cs : List Char) (n un : Nat), strconv.parseUintLoop cs n = .ok un →
      (∀ c ∈ cs, strconv.isDigit c = true) ∧ (cs ≠ [] → un < 2 ^ 64) := by
  intro cs
  induction cs with
  | nil => intro n un _; simp
  | cons c cs ih =>
    intro n un h
    unfold strconv.parseUintLoop at h
    split_ifs at h with hd hov
    · simp only [Bool.not_eq_true, Bool.not_eq_false] at hd
      obtain ⟨h1, h2⟩ := ih _ _ h
      refine ⟨?_, ?_⟩
      · intro c0 hc0
        rcases List.mem_cons.mp hc0 with rfl | hmem
        · exact hd
        · exact h1 c0 hmem
      · intro _
        cases cs with
        | nil =>
          simp only [strconv.parseUintLoop, Except.ok.injEq] at h
          omega
        | cons c1 cs1 => exact h2 (by simp)

/-- On a run of decimal digits the mantissa loop of `readFloat` reads the same
number as the byte loop of `ParseUint`. -/
theorem readMantissa_digits :
    ∀ (cs : List Char) (m : strconv.Mant) (un : Nat),
      (∀ c ∈ cs, strconv.isDigit c = true) → m.sawdot = false → m.underscores = false →
      (m.nd = 0 → m.mantissa = 0) →
      strconv.parseUintLoop cs m.mantissa = .ok un →
      ∃ m1, strconv.readMantissa false cs m = (m1, []) ∧ m1.mantissa = un ∧
        m1.sawdot = false ∧ m1.underscores = false ∧
        (m1.sawdigits = true ↔ (m.sawdigits = true ∨ cs ≠ [])) := by
  intro cs
  induction cs with
  | nil =>
    intro m un _ hdot hus _ hp
    simp only [strconv.parseUintLoop, Except.ok.injEq] at hp
    exact ⟨m, rfl, hp, hdot, hus, by simp⟩
  | cons c cs ih =>
    intro m un hdig hdot hus hinv hp
    have hc := hdig c (by simp)
    have hcn := isDigit_toNat hc
    have h1 : c ≠ '_' := by rintro rfl; revert hc; decide
    have h2 : c ≠ '.' := by rintro rfl; revert hc; decide
    unfold strconv.parseUintLoop at hp
    simp only [hc, not_true_eq_false, if_false] at hp
    split_ifs at hp with hov
    unfold strconv.readMantissa
    simp only [h1, h2, if_false, hc, if_true]
    by_cases hz : c = '0' ∧ m.nd = 0
    · rw [if_pos hz]
      have hm0 : m.mantissa = 0 := hinv hz.2
      have hval : m.mantissa * 10 + strconv.digitVal c = m.mantissa := by
        rw [hm0, hz.1]; decide
      rw [hval] at hp
      obtain ⟨m1, hr, hv, hd1, hu1, hs1⟩ := ih { m with sawdigits := true, dp := m.dp - 1 } un
        (fun c0 h0 => hdig c0 (by simp [h0])) hdot hus hinv hp
      exact ⟨m1, hr, hv, hd1, hu1, by simp [hs1]⟩
    · rw [if_neg hz]
      obtain ⟨m1, hr, hv, hd1, hu1, hs1⟩ := ih
        { m with sawdigits := true, nd := m.nd + 1,
                 mantissa := m.mantissa * (if false = true then 16 else 10) + strconv.digitVal c }
        un (fun c0 h0 => hdig c0 (by simp [h0])) hdot hus (by simp) (by simpa using hp)
      exact ⟨m1, hr, hv, hd1, hu1, by simp [hs1]⟩

/-- What `ParseInt` accepts: an optional sign and a non-empty run of digits
whose value fits 64 bits. -/
theorem ParseInt_ok_shape (raw : String) (i : Int) (h : strconv.ParseInt raw = .ok i) :
    ∃ c cs un, raw.data = c :: cs ∧
      (if c = '+' ∨ c = '-' then cs else c :: cs) ≠ [] ∧
      strconv.parseUintLoop (if c = '+' ∨ c = '-' then cs else c :: cs) 0 = .ok un := by
  unfold strconv.ParseInt at h
  cases hd : raw.data with
  | nil => rw [hd] at h; cases h
  | cons c cs =>
    rw [hd] at h
    simp only [strconv.ParseUintChars] at h
    by_cases hb : (if c = '+' ∨ c = '-' then cs else c :: cs) = []
    · rw [if_pos hb] at h; cases h
    · rw [if_neg hb] at h
      cases hp : strconv.parseUintLoop (if c = '+' ∨ c = '-' then cs else c :: cs) 0 with
      | error b => rw [hp] at h; cases b <;> cases h
      | ok un => exact ⟨c, cs, un, rfl, hb, hp⟩

theorem special_digits_none (d : Char) (ds : List Char) (hd : strconv.isDigit d = true)
    (neg : Bool) (nsign : Nat) : strconv.specialInf neg nsign (d :: ds) = none := by
  have hn := isDigit_toNat hd
  have hfold : strconv.foldCase d = d := by
    unfold strconv.foldCase
    rw [if_neg]
    intro h
    have : 'A'.toNat = 65 := rfl
    omega
  have hne : d ≠ 'i' := by rintro rfl; revert hd; decide
  have hlen : strconv.commonPrefixLenIgnoreCase (d :: ds) "infinity".data = 0 := by
    show strconv.commonPrefixLenIgnoreCase (d :: ds) ('i' :: "nfinity".data) = 0
    simp [strconv.commonPrefixLenIgnoreCase, hfold, hne]
  unfold strconv.specialInf
  simp [hlen]


theorem readFloat_int_literal (c : Char) (cs : List Char) (un : Nat)
    (hne : (if c = '+' ∨ c = '-' then cs else c :: cs) ≠ [])
    (hp : strconv.parseUintLoop (if c = '+' ∨ c = '-' then cs else c :: cs) 0 = .ok un) :
    strconv.readFloat (c :: cs) = some ⟨decide (c = '-'), false, un, 0, []⟩ := by
  obtain ⟨hdig, _⟩ := parseUintLoop_ok _ _ _ hp
  obtain ⟨m1, hr, hv, hd1, hu1, hs1⟩ := readMantissa_digits _ {} un hdig rfl rfl (fun _ => rfl) hp
  have hsd : m1.sawdigits = true := hs1.mpr (Or.inr hne)
  unfold strconv.readFloat
  dsimp only
  generalize hbody : (if c = '+' ∨ c = '-' then cs else c :: cs) = body at *
  rcases body with _ | ⟨d0, _ | ⟨d1, _ | ⟨d2, ds⟩⟩⟩
  · exact absurd rfl hne
  · simp [hr, hsd, hu1, hd1, hv]
  · simp [hr, hsd, hu1, hd1, hv]
  · have h1 : strconv.isDigit d1 = true := hdig d1 (by simp)
    have hx : d1 ≠ 'x' := by rintro rfl; revert h1; decide
    have hX : d1 ≠ 'X' := by rintro rfl; revert h1; decide
    simp [hx, hX, hr, hsd, hu1, hd1, hv]

theorem special_int_literal (c : Char) (cs : List Char)
    (hne : (if c = '+' ∨ c = '-' then cs else c :: cs) ≠ [])
    (hdig : ∀ d ∈ (if c = '+' ∨ c = '-' then cs else c :: cs), strconv.isDigit d = true) :
    strconv.special (c :: cs) = none := by
  unfold strconv.special
  by_cases hsign : c = '+' ∨ c = '-'
  · simp only [hsign, if_true] at hne hdig ⊢
    cases cs with
    | nil => exact absurd rfl hne
    | cons d ds => exact special_digits_none d ds (hdig d (by simp)) _ _
  · simp only [hsign, if_false] at hdig ⊢
    have hc : strconv.isDigit c = true := hdig c (by simp)
    have h1 : c ≠ 'i' := by rintro rfl; revert hc; decide
    have h2 : c ≠ 'I' := by rintro rfl; revert hc; decide
    have h3 : c ≠ 'n' := by rintro rfl; revert hc; decide
    have h4 : c ≠ 'N' := by rintro rfl; revert hc; decide
    simp [h1, h2, h3, h4]

/-- The float parse of an optional sign followed by digits that `ParseUint`
accepts: the rounded integer, never an error. -/
theorem ParseFloat_int_literal (raw : String) (c : Char) (cs : List Char) (un : Nat)
    (hdata : raw.data = c :: cs)
    (hne : (if c = '+' ∨ c = '-' then cs else c :: cs) ≠ [])
    (hp : strconv.parseUintLoop (if c = '+' ∨ c = '-' then cs else c :: cs) 0 = .ok un) :
    strconv.ParseFloat raw = .ok (Float64.round (decide (c = '-')) un 1).1 := by
  obtain ⟨hdig, hlt⟩ := parseUintLoop_ok _ _ _ hp
  have hlt := hlt hne
  have hspecial := special_int_literal c cs hne hdig
  have hread := readFloat_int_literal c cs un hne hp
  have hlog : Float64.log2 un ≤ 63 := log2Fuel_le un un 63 hlt
  have hlog1 : Float64.log2 1 = 0 := by decide
  have hovf : (Float64.round (decide (c = '-')) un 1).2 = false :=
    round_no_overflow _ un 1 (by rw [hlog1]; omega)
  unfold strconv.ParseFloat
  simp only [hdata, hspecial, hread]
  simp [hovf]

/-- C16. For every raw string that parses as a base-10 signed 64-bit integer,
`TypedValue.Convert` with declared type Unset returns the float64 parse of raw,
which succeeds: the result is a float64, never an int64 and never a string. -/
theorem C16_int_literal_converts_to_float (raw : String) (i : Int)
    (hint : strconv.ParseInt raw = .ok i) :
    ∃ f, strconv.ParseFloat raw = .ok f ∧
      (TypedValue.mk raw XtypeUnset).Convert = .ok (.float64 f) := by
  obtain ⟨c, cs, un, hdata, hne, hp⟩ := ParseInt_ok_shape raw i hint
  have hf := ParseFloat_int_literal raw c cs un hdata hne hp
  refine ⟨_, hf, ?_⟩
  have hraw : ¬ "" = raw := by
    intro h
    rw [← h] at hdata
    cases hdata
  have h0 : (TypedValue.mk raw XtypeUnset).Convert = (TypedValue.mk raw XtypeUnset).TryConvertUnset :=
    rfl
  rw [h0]
  unfold TypedValue.TryConvertUnset
  simp only [hraw, if_false, hf]

/-- The literal 42 becomes the float64 number 42. -/
theorem C16_int_literal_converts_to_float_witness :
    strconv.ParseInt "42" = .ok 42 ∧
    (TypedValue.mk "42" XtypeUnset).Convert = .ok (.float64 ⟨0x4045000000000000⟩) ∧
    ∃ f, strconv.ParseFloat "42" = .ok f ∧
      (TypedValue.mk "42" XtypeUnset).Convert = .ok (.float64 f) :=
  ⟨by decide, by decide, C16_int_literal_converts_to_float "42" 42 (by decide)⟩

/-! ## Rounding returns a finite number unless it overflows -/

theorem log2Fuel_spec :
    ∀ (fuel n : Nat), 1 ≤ n → n < 2 ^ fuel →
      2 ^ Float64.log2Fuel fuel n ≤ n ∧ n < 2 ^ (Float64.log2Fuel fuel n + 1) := by
  intro fuel
  induction fuel with
  | zero => intro n h1 h2; simp at h2; omega
  | succ fuel ih =>
    intro n h1 h2
    unfold Float64.log2Fuel
    split
    · rename_i hge
      have hhalf1 : 1 ≤ n / 2 := by omega
      have hhalf2 : n / 2 < 2 ^ fuel := by
        rw [Nat.div_lt_iff_lt_mul (by norm_num)]
        rw [pow_succ] at h2
        exact h2
      obtain ⟨hlo, hhi⟩ := ih (n / 2) hhalf1 hhalf2
      constructor
      · rw [pow_succ]; omega
      · rw [pow_succ]; omega
    · constructor <;> simp <;> omega

theorem log2_spec (n : Nat) (h : 1 ≤ n) :
    2 ^ Float64.log2 n ≤ n ∧ n < 2 ^ (Float64.log2 n + 1) :=
  log2Fuel_spec n n h (Nat.lt_two_pow n)

/-- The quotient taken by `round` stays below 2^53 when the value is below
2^(e + 1) and the shift is at least e - 52. -/
theorem round_quotient_lt (num den : Nat) (hden : 0 < den) (e sh : Int)
    (hup : (num : ℚ) < (den : ℚ) * (2 : ℚ) ^ (e + 1)) (hsh : e - 52 ≤ sh) :
    (if 0 ≤ sh then num else num * 2 ^ (-sh).toNat)
      / (if 0 ≤ sh then den * 2 ^ sh.toNat else den) < 2 ^ 53 := by
  have h2 : (1 : ℚ) ≤ 2 := by norm_num
  have hmono : (2 : ℚ) ^ (e + 1) ≤ (2 : ℚ) ^ (53 + sh) :=
    zpow_le_zpow_right₀ h2 (by omega)
  have hdenq : (0 : ℚ) < den := by exact_mod_cast hden
  have hlt : (num : ℚ) < (den : ℚ) * (2 : ℚ) ^ (53 + sh) :=
    lt_of_lt_of_le hup (mul_le_mul_of_nonneg_left hmono hdenq.le)
  rw [zpow_add₀ (by norm_num : (2 : ℚ) ≠ 0)] at hlt
  by_cases hs : 0 ≤ sh
  · simp only [hs, if_true]
    rw [Nat.div_lt_iff_lt_mul (by positivity)]
    have hcast : ((sh.toNat : Int)) = sh := Int.toNat_of_nonneg hs
    have hz : (2 : ℚ) ^ sh = (2 : ℚ) ^ sh.toNat := by
      rw [← zpow_natCast, hcast]
    rw [hz] at hlt
    have : (num : ℚ) < ((2 ^ 53 * (den * 2 ^ sh.toNat) : Nat) : ℚ) := by
      push_cast
      calc (num : ℚ) < (den : ℚ) * ((2 : ℚ) ^ (53 : Int) * (2 : ℚ) ^ sh.toNat) := hlt
        _ = 2 ^ 53 * ((den : ℚ) * 2 ^ sh.toNat) := by
          rw [show ((2 : ℚ) ^ (53 : Int)) = (2 : ℚ) ^ (53 : Nat) from by norm_cast]
          ring
    exact_mod_cast this
  · simp only [hs, if_false]
    rw [Nat.div_lt_iff_lt_mul hden]
    have hneg : 0 ≤ -sh := by omega
    have hcast : (((-sh).toNat : Int)) = -sh := Int.toNat_of_nonneg hneg
    have hz : (2 : ℚ) ^ (-sh) = (2 : ℚ) ^ (-sh).toNat := by
      rw [← zpow_natCast, hcast]
    have hpos : (0 : ℚ) < (2 : ℚ) ^ (-sh).toNat := by positivity
    have hinv : (2 : ℚ) ^ sh * (2 : ℚ) ^ (-sh).toNat = 1 := by
      rw [← hz, ← zpow_add₀ (by norm_num : (2 : ℚ) ≠ 0)]
      simp
    have : ((num * 2 ^ (-sh).toNat : Nat) : ℚ) < ((2 ^ 53 * den : Nat) : ℚ) := by
      push_cast
      calc (num : ℚ) * 2 ^ (-sh).toNat
          < (den : ℚ) * ((2 : ℚ) ^ (53 : Int) * (2 : ℚ) ^ sh) * 2 ^ (-sh).toNat :=
            mul_lt_mul_of_pos_right hlt hpos
        _ = (den : ℚ) * (2 : ℚ) ^ (53 : Int) * ((2 : ℚ) ^ sh * 2 ^ (-sh).toNat) := by ring
        _ = 2 ^ 53 * (den : ℚ) := by
          rw [hinv, show ((2 : ℚ) ^ (53 : Int)) = (2 : ℚ) ^ (53 : Nat) from by norm_cast]
          ring
    exact_mod_cast this

/-- The value rounded lies below 2^(e + 1) for the exponent `e` that `round`
settles on. -/
theorem round_exponent_bound (num den : Nat) (h1 : 1 ≤ num) (h2 : 1 ≤ den) (c : Bool)
    (hc : c = false →
      if 0 ≤ (Float64.log2 num : Int) - (Float64.log2 den : Int) then
        num < den * 2 ^ ((Float64.log2 num : Int) - (Float64.log2 den : Int)).toNat
      else num * 2 ^ (-((Float64.log2 num : Int) - (Float64.log2 den : Int))).toNat < den) :
    (num : ℚ) < (den : ℚ) * (2 : ℚ) ^
      ((if c then (Float64.log2 num : Int) - (Float64.log2 den : Int)
        else (Float64.log2 num : Int) - (Float64.log2 den : Int) - 1) + 1) := by
  obtain ⟨_, hnum⟩ := log2_spec num h1
  obtain ⟨hden, _⟩ := log2_spec den h2
  generalize Float64.log2 num = a at *
  generalize Float64.log2 den = b at *
  have two : (2 : ℚ) ≠ 0 := by norm_num
  cases c with
  | true =>
    simp only [if_true]
    have hn : (num : ℚ) < (2 : ℚ) ^ (a + 1) := by exact_mod_cast hnum
    have hd : (2 : ℚ) ^ b ≤ (den : ℚ) := by exact_mod_cast hden
    have hsplit : (2 : ℚ) ^ (a + 1) = (2 : ℚ) ^ b * (2 : ℚ) ^ ((a : Int) - (b : Int) + 1) := by
      rw [← zpow_natCast, ← zpow_natCast, ← zpow_add₀ two]
      congr 1
      push_cast
      ring
    rw [hsplit] at hn
    have hpos : (0 : ℚ) < (2 : ℚ) ^ ((a : Int) - (b : Int) + 1) := by positivity
    exact lt_of_lt_of_le hn (mul_le_mul_of_nonneg_right hd hpos.le)
  | false =>
    have hc := hc rfl
    simp only [Bool.false_eq_true, if_false, sub_add_cancel]
    by_cases he : 0 ≤ (a : Int) - (b : Int)
    · rw [if_pos he] at hc
      have hcast : ((((a : Int) - (b : Int)).toNat : Int)) = (a : Int) - (b : Int) :=
        Int.toNat_of_nonneg he
      have hz : (2 : ℚ) ^ ((a : Int) - (b : Int)) = (2 : ℚ) ^ ((a : Int) - (b : Int)).toNat := by
        rw [← zpow_natCast, hcast]
      rw [hz]
      exact_mod_cast hc
    · rw [if_neg he] at hc
      have hneg : 0 ≤ -((a : Int) - (b : Int)) := by omega
      have hcast : (((-((a : Int) - (b : Int))).toNat : Int)) = -((a : Int) - (b : Int)) :=
        Int.toNat_of_nonneg hneg
      have hz : (2 : ℚ) ^ (-((a : Int) - (b : Int)))
          = (2 : ℚ) ^ (-((a : Int) - (b : Int))).toNat := by
        rw [← zpow_natCast, hcast]
      have hq : (num : ℚ) * (2 : ℚ) ^ (-((a : Int) - (b : Int))).toNat < (den : ℚ) := by
        exact_mod_cast hc
      rw [← hz] at hq
      have hpos : (0 : ℚ) < (2 : ℚ) ^ ((a : Int) - (b : Int)) := by positivity
      have hinv : (2 : ℚ) ^ (-((a : Int) - (b : Int))) * (2 : ℚ) ^ ((a : Int) - (b : Int)) = 1 := by
        rw [← zpow_add₀ two]
        simp
      calc (num : ℚ) = (num : ℚ) * ((2 : ℚ) ^ (-((a : Int) - (b : Int)))
              * (2 : ℚ) ^ ((a : Int) - (b : Int))) := by rw [hinv, mul_one]
        _ = (num : ℚ) * (2 : ℚ) ^ (-((a : Int) - (b : Int))) * (2 : ℚ) ^ ((a : Int) - (b : Int)) := by
          ring
        _ < (den : ℚ) * (2 : ℚ) ^ ((a : Int) - (b : Int)) := mul_lt_mul_of_pos_right hq hpos

/-- A result of `round` that does not overflow is a finite number. -/
theorem round_finite (neg : Bool) (num den : Nat)
    (h : (Float64.round neg num den).2 = false) :
    (Float64.round neg num den).1.isFinite = true := by
  unfold Float64.round at h ⊢
  dsimp only at h ⊢
  by_cases h0 : num = 0 ∨ den = 0
  · rw [if_pos h0]
    cases neg <;> decide
  · rw [if_neg h0] at h ⊢
    have hnum : 1 ≤ num := by omega
    have hden : 1 ≤ den := by omega
    generalize hge : (if 0 ≤ (Float64.log2 num : Int) - (Float64.log2 den : Int) then
        decide (den * 2 ^ ((Float64.log2 num : Int) - (Float64.log2 den : Int)).toNat ≤ num)
      else decide (den ≤ num * 2 ^ (-((Float64.log2 num : Int) - (Float64.log2 den : Int))).toNat))
      = ge at h ⊢
    have hc : ge = false →
        if 0 ≤ (Float64.log2 num : Int) - (Float64.log2 den : Int) then
          num < den * 2 ^ ((Float64.log2 num : Int) - (Float64.log2 den : Int)).toNat
        else num * 2 ^ (-((Float64.log2 num : Int) - (Float64.log2 den : Int))).toNat < den := by
      intro hf
      rw [hf] at hge
      split_ifs at hge ⊢ with hs
      · simpa using hge
      · simpa using hge
    have hup := round_exponent_bound num den hnum hden ge hc
    generalize (if ge = true then (Float64.log2 num : Int) - (Float64.log2 den : Int)
      else (Float64.log2 num : Int) - (Float64.log2 den : Int) - 1) = e at h hup ⊢
    have hshle : e - 52 ≤ max (e - 52) (-1074) := le_max_left _ _
    have hq := round_quotient_lt num den hden e (max (e - 52) (-1074)) hup hshle
    generalize max (e - 52) (-1074) = sh at h hq ⊢
    generalize (if 0 ≤ sh then num else num * 2 ^ (-sh).toNat) = n at h hq ⊢
    generalize (if 0 ≤ sh then den * 2 ^ sh.toNat else den) = d at h hq ⊢
    have hq1 : (if d < 2 * (n % d) ∨ 2 * (n % d) = d ∧ n / d % 2 = 1 then n / d + 1 else n / d)
        ≤ 2 ^ 53 := by
      split_ifs <;> omega
    generalize (if d < 2 * (n % d) ∨ 2 * (n % d) = d ∧ n / d % 2 = 1 then n / d + 1 else n / d)
      = q1 at h hq1 ⊢
    have hq2 : (if q1 = 2 ^ 53 then 2 ^ 52 else q1) < 2 ^ 53 := by
      split_ifs <;> omega
    generalize (if q1 = 2 ^ 53 then sh + 1 else sh) = sh2 at h ⊢
    generalize (if q1 = 2 ^ 53 then 2 ^ 52 else q1) = q2 at h hq2 ⊢
    by_cases hsub : q2 < 2 ^ 52
    · rw [if_pos hsub]
      simp only [Float64.isFinite, Float64.expField, Float64.signBit, bne_iff_ne, ne_eq]
      cases neg
      · simp only [Bool.false_eq_true, if_false]; omega
      · simp only [if_true]; omega
    · rw [if_neg hsub] at h ⊢
      by_cases hov : 2047 ≤ sh2 + 1075
      · rw [if_pos hov] at h
        cases h
      · rw [if_neg hov]
        simp only [Float64.isFinite, Float64.expField, Float64.signBit, bne_iff_ne, ne_eq]
        have hb : (sh2 + 1075).toNat < 2047 := by omega
        generalize (sh2 + 1075).toNat = b at hb ⊢
        cases neg
        · simp only [Bool.false_eq_true, if_false]; omega
        · simp only [if_true]; omega

/-- The special values are not finite. -/
theorem special_not_finite (s : List Char) (f : Float64) (n : Nat)
    (h : strconv.special s = some (f, n)) : f.isFinite = false := by
  have hinf : ∀ (neg : Bool) (k : Nat) (t : List Char),
      strconv.specialInf neg k t = some (f, n) → f.isFinite = false := by
    intro neg k t ht
    unfold strconv.specialInf at ht
    dsimp only at ht
    split_ifs at ht
    all_goals
      simp only [Option.some.injEq, Prod.mk.injEq] at ht
      rw [← ht.1]
      cases neg <;> decide
  unfold strconv.special at h
  cases s with
  | nil => cases h
  | cons c cs =>
    simp only at h
    split_ifs at h
    · exact hinf _ _ _ h
    · exact hinf _ _ _ h
    · simp only [Option.some.injEq, Prod.mk.injEq] at h
      rw [← h.1]
      decide

/-- A successful float parse is finite unless the whole string is one of the
special spellings. -/
theorem ParseFloat_finite_or_special (raw : String) (f : Float64)
    (h : strconv.ParseFloat raw = .ok f) :
    f.isFinite = true ∨
      (strconv.special raw.data = some (f, raw.data.length) ∧ f.isFinite = false) := by
  unfold strconv.ParseFloat at h
  cases hs : strconv.special raw.data with
  | some fn =>
    obtain ⟨f1, n⟩ := fn
    rw [hs] at h
    simp only at h
    split_ifs at h with hn
    simp only [Except.ok.injEq] at h
    subst h
    subst hn
    exact Or.inr ⟨rfl, special_not_finite _ _ _ hs⟩
  | none =>
    rw [hs] at h
    simp only at h
    cases hr : strconv.readFloat raw.data with
    | none => rw [hr] at h; cases h
    | some r =>
      rw [hr] at h
      simp only at h
      split_ifs at h
      all_goals
        simp only [Except.ok.injEq] at h
        rw [← h]
        exact Or.inl (round_finite _ _ _ (Bool.eq_false_iff.mpr (by assumption)))

/-- C17 (counterexample). Under declared type Number the raw string NaN
converts, without error, to the float64 NaN, and under Unset the raw string Inf
converts to the positive infinity: neither is a finite number. -/
theorem C17_NaN_and_Inf_convert_to_non_finite :
    (TypedValue.mk "NaN" XtypeNumber).Convert = .ok (.float64 Float64.nan) ∧
    Float64.nan.isFinite = false ∧
    (TypedValue.mk "Inf" XtypeUnset).Convert = .ok (.float64 (Float64.inf false)) ∧
    (Float64.inf false).isFinite = false := by
  decide

/-- C17 (amended). Whenever `TypedValue.Convert` succeeds, its result is null,
a boolean, a string or a float64 number, the float parse of raw; that number is
finite unless raw as a whole is one of the special spellings the float parse
accepts (NaN, or Inf or Infinity with an optional sign, in any letter case),
for which it is a NaN or an infinity. -/
theorem C17_result_is_finite_unless_special (raw : String) (typ : Xtype) (v : GoAny)
    (h : (TypedValue.mk raw typ).Convert = .ok v) :
    v = .null ∨ (∃ b, v = .bool b) ∨ (∃ s, v = .string s) ∨
    (∃ f, v = .float64 f ∧ strconv.ParseFloat raw = .ok f ∧
      (f.isFinite = true ∨
        (strconv.special raw.data = some (f, raw.data.length) ∧ f.isFinite = false))) := by
  unfold TypedValue.Convert at h
  simp only [TypedValue.ConvertBool, TypedValue.ConvertString, TypedValue.ConvertNumber] at h
  split_ifs at h
  · -- Unset
    unfold TypedValue.TryConvertUnset at h
    simp only [TypedValue.ConvertUnset] at h
    split_ifs at h
    · cases h; exact Or.inl rfl
    · cases hf : strconv.ParseFloat raw with
      | ok f =>
        rw [hf] at h
        cases h
        exact Or.inr (Or.inr (Or.inr ⟨f, rfl, rfl, ParseFloat_finite_or_special raw f hf⟩))
      | error e1 =>
        rw [hf] at h
        simp only at h
        cases hb : strconv.ParseBool raw with
        | ok b => rw [hb] at h; cases h; exact Or.inr (Or.inl ⟨b, rfl⟩)
        | error e2 =>
          rw [hb] at h
          simp only at h
          cases hi : strconv.ParseInt raw with
          | ok i =>
            obtain ⟨c, cs, un, hdata, hne, hp⟩ := ParseInt_ok_shape raw i hi
            rw [ParseFloat_int_literal raw c cs un hdata hne hp] at hf
            cases hf
          | error e3 => rw [hi] at h; cases h; exact Or.inr (Or.inr (Or.inl ⟨raw, rfl⟩))
  · cases hb : strconv.ParseBool raw with
    | ok b => rw [hb] at h; cases h; exact Or.inr (Or.inl ⟨b, rfl⟩)
    | error e => rw [hb] at h; cases h
  · cases h; exact Or.inr (Or.inr (Or.inl ⟨raw, rfl⟩))
  · cases h; exact Or.inr (Or.inr (Or.inl ⟨raw, rfl⟩))
  · cases h; exact Or.inr (Or.inr (Or.inl ⟨raw, rfl⟩))
  · cases h; exact Or.inr (Or.inr (Or.inl ⟨raw, rfl⟩))
  · cases hf : strconv.ParseFloat raw with
    | ok f =>
      rw [hf] at h
      cases h
      exact Or.inr (Or.inr (Or.inr ⟨f, rfl, rfl, ParseFloat_finite_or_special raw f hf⟩))
    | error e => rw [hf] at h; cases h
  · cases h; exact Or.inr (Or.inr (Or.inl ⟨raw, rfl⟩))
  · cases h; exact Or.inr (Or.inr (Or.inl ⟨raw, rfl⟩))

theorem C17_result_is_finite_unless_special_witness :
    (TypedValue.mk "9.5" XtypeNumber).Convert = .ok (.float64 ⟨0x4023000000000000⟩) ∧
    (GoAny.float64 ⟨0x4023000000000000⟩ = .null ∨
      (∃ b, GoAny.float64 ⟨0x4023000000000000⟩ = .bool b) ∨
      (∃ s, GoAny.float64 ⟨0x4023000000000000⟩ = .string s) ∨
      (∃ f, GoAny.float64 ⟨0x4023000000000000⟩ = .float64 f ∧ strconv.ParseFloat "9.5" = .ok f ∧
        (f.isFinite = true ∨
          (strconv.special "9.5".data = some (f, "9.5".data.length) ∧ f.isFinite = false)))) :=
  ⟨by decide,
    C17_result_is_finite_unless_special "9.5" XtypeNumber (.float64 ⟨0x4023000000000000⟩)
      (by decide)⟩

/-! ## Closing the cursor -/

theorem skipLoopTrace_fst (skipRows : Int) :
    ∀ (rows : List SrcRow) (cur : Int),
      (Xrows.skipLoopTrace skipRows cur rows).1 = Xrows.skipLoop skipRows cur rows := by
  intro rows
  induction rows with
  | nil => intro cur; unfold Xrows.skipLoopTrace Xrows.skipLoop; split_ifs <;> rfl
  | cons r rs ih =>
    intro cur
    unfold Xrows.skipLoopTrace Xrows.skipLoop
    split_ifs
    · cases hr : r.err with
      | some e => rfl
      | none => exact ih (cur + 1)
    · rfl

theorem skipLoopTrace_calls (skipRows : Int) :
    ∀ (rows : List SrcRow) (cur : Int),
      Event.close ∉ (Xrows.skipLoopTrace skipRows cur rows).2 ∧
      (Xrows.skipLoopTrace skipRows cur rows).2.filterMap Event.pair = [] := by
  intro rows
  induction rows with
  | nil =>
    intro cur
    unfold Xrows.skipLoopTrace
    split_ifs <;> simp [Event.pair]
  | cons r rs ih =>
    intro cur
    unfold Xrows.skipLoopTrace
    split_ifs
    · cases hr : r.err with
      | some e => simp [Event.pair]
      | none =>
        obtain ⟨h1, h2⟩ := ih (cur + 1)
        simp [Event.pair, h1, h2]
    · simp

theorem yieldLoopTrace_fst {σ : Type} (yield : Yield σ Row) :
    ∀ (rows : List SrcRow) (cur : Int) (s : σ),
      (Xrows.yieldLoopTrace yield cur rows s).1 = Xrows.yieldLoop yield cur rows s := by
  intro rows
  induction rows with
  | nil => intro cur s; rfl
  | cons r rs ih =>
    intro cur s
    unfold Xrows.yieldLoopTrace Xrows.yieldLoop
    cases hr : r.err with
    | some e => rfl
    | none =>
      simp only
      split_ifs
      · exact ih _ _
      · rfl

theorem yieldLoopTrace_calls {σ : Type} (yield : Yield σ Row) :
    ∀ (rows : List SrcRow) (cur : Int) (s : σ) (acc : List (Row × Option GoError)),
      Event.close ∉ (Xrows.yieldLoopTrace yield cur rows s).2 ∧
      (Xrows.yieldLoop (recording yield) cur rows (s, acc)).1.2
        = acc ++ (Xrows.yieldLoopTrace yield cur rows s).2.filterMap Event.pair := by
  intro rows
  induction rows with
  | nil => intro cur s acc; simp [Xrows.yieldLoopTrace, Xrows.yieldLoop, Event.pair]
  | cons r rs ih =>
    intro cur s acc
    unfold Xrows.yieldLoopTrace Xrows.yieldLoop
    cases hr : r.err with
    | some e => simp [Event.pair, recording]
    | none =>
      simp only
      by_cases hy : (yield s { Index := cur, Columns := r.cols } r.colsErr).2 = true
      · obtain ⟨h1, h2⟩ := ih (cur + 1) (yield s { Index := cur, Columns := r.cols } r.colsErr).1
          (acc ++ [({ Index := cur, Columns := r.cols }, r.colsErr)])
        have hrec : (recording yield (s, acc) { Index := cur, Columns := r.cols } r.colsErr)
            = (((yield s { Index := cur, Columns := r.cols } r.colsErr).1,
                acc ++ [({ Index := cur, Columns := r.cols }, r.colsErr)]), true) := by
          simp [recording, hy]
        simp only [hy, if_true, hrec]
        refine ⟨by simp [h1], ?_⟩
        rw [h2]
        simp [Event.pair]
      · have hrec : (recording yield (s, acc) { Index := cur, Columns := r.cols } r.colsErr).2
            = false := by
          simpa [recording] using hy
        simp only [hy, hrec, Bool.false_eq_true, if_false]
        simp [Event.pair, recording]

/-- C18. One run of the sequence of `Xrows.ToIter`, whatever the skip count,
the source and the consumer, closes its cursor exactly once, and only after the
last pair has been yielded. The run with its calls recorded computes what
`ToIter` computes and leaves the close count raised by one; its record ends
with the one `Close` of the run; the calls before it hold no `Close`, and the
pairs of their `yield` calls are exactly the pairs the run hands to its
consumer. This covers exhaustion during or after skipping, a source error and a
consumer that stops: `Xfile.ToHeader`, which stops at the first row, leaves the
cursor it opened closed once, and on `demoRows` its pass makes the calls
`Next`, `Error`, `Columns`, `yield` and then `Close`. -/
theorem C18_close_is_the_last_call_of_every_run {σ : Type} (r : Xrows) (skipRows : Int)
    (yield : Yield σ Row) (s : σ) (x : Xfile) (sheet : SheetName) :
    (r.ToIterTrace skipRows yield s).1 = r.ToIter skipRows yield s ∧
    (r.ToIter skipRows yield s).2.closed = r.closed + 1 ∧
    (∃ calls, (r.ToIterTrace skipRows yield s).2 = calls ++ [Event.close] ∧
      Event.close ∉ calls ∧
      calls.filterMap Event.pair = (r.ToIter skipRows (recording yield) (s, [])).1.2) ∧
    (r.ToIterTrace skipRows yield s).2.count Event.close = 1 ∧
    (x.ToHeader sheet skipRows).cursors.map (fun c => c.closed)
      = (match x.File.Rows sheet with
         | .ok _ => [1]
         | .error _ => []) ∧
    (Xrows.ToIterTrace { pending := demoRows, closed := 0 } 0 Xfile.headerStep none).2
      = [Event.next true, Event.error none, Event.columns,
         Event.yielded { Index := 1, Columns := ["id", "name", "score"] } none false,
         Event.close] := by
  have hfst := skipLoopTrace_fst skipRows r.pending 1
  obtain ⟨hskipclose, hskippairs⟩ := skipLoopTrace_calls skipRows r.pending 1
  have hmain : (r.ToIterTrace skipRows yield s).1 = r.ToIter skipRows yield s ∧
      ∃ calls, (r.ToIterTrace skipRows yield s).2 = calls ++ [Event.close] ∧
        Event.close ∉ calls ∧
        calls.filterMap Event.pair = (r.ToIter skipRows (recording yield) (s, [])).1.2 := by
    unfold Xrows.ToIterTrace Xrows.ToIter
    rw [← hfst]
    cases hsk : Xrows.skipLoopTrace skipRows 1 r.pending with
    | mk outcome calls =>
      rw [hsk] at hskipclose hskippairs
      simp only at hskipclose hskippairs
      cases outcome with
      | exhausted => exact ⟨rfl, calls, rfl, hskipclose, by simpa using hskippairs⟩
      | failed e rest =>
        refine ⟨rfl, _, rfl, ?_, ?_⟩
        · simp [hskipclose]
        · simp [hskippairs, Event.pair, recording]
      | done cur rest =>
        obtain ⟨hclose, hpairs⟩ := yieldLoopTrace_calls yield rest cur s []
        refine ⟨?_, _, rfl, ?_, ?_⟩
        · simp only [yieldLoopTrace_fst]
        · simp [hskipclose, hclose]
        · simp only [List.filterMap_append, hskippairs, List.nil_append, hpairs]
  obtain ⟨h1, calls, h2, h3, h4⟩ := hmain
  refine ⟨h1, rfl, ⟨calls, h2, h3, h4⟩, ?_, ?_, by decide⟩
  · rw [h2, List.count_append, List.count_eq_zero_of_not_mem h3]
    simp
  · unfold Xfile.ToHeader
    cases x.File.Rows sheet with
    | error e => rfl
    | ok rows =>
      simp only
      split <;> rfl

end X2jsonl
